import Mathlib

/-!
Verification of the Discord-forum / Trello synchronization engine.

The definitions below are a shallow embedding of the JavaScript sources:
`src/index.js` (class `DiscordTrelloBot`, first draft, lines 1-714, which is
the copy the specification's line references point into) and
`src/unnamed/part_001` (class `TrelloPoller`).  JavaScript `Map`s and `Set`s
are modelled as association lists / lists kept in insertion order, which is
the iteration order JavaScript guarantees.  Remote calls are modelled by
explicit world state; rendering builtins of the JavaScript runtime
(`toISOString`, `toLocaleString`, `toLocaleDateString`) are abstracted by
fixed injective functions of their input, which is faithful for a fixed
process environment (locale and timezone do not change during a run).
-/

/-! ## JavaScript collection primitives -/

/-- JavaScript `Set.add`: inserts at the end when absent (insertion order). -/
def jsSetAdd (s : List String) (x : String) : List String :=
  if s.contains x then s else s ++ [x]

/-- JavaScript `Map.get` on an association list (first entry wins). -/
def jsMapGet : List (String × α) → String → Option α
  | [], _ => none
  | (k', v) :: rest, k => if k' == k then some v else jsMapGet rest k

/-- JavaScript `Map.has`. -/
def jsMapHas (m : List (String × α)) (k : String) : Bool :=
  (jsMapGet m k).isSome

/-- JavaScript `Map.set`: overwrites in place when the key exists (keeping its
insertion position), appends otherwise. -/
def jsMapSet : List (String × α) → String → α → List (String × α)
  | [], k, v => [(k, v)]
  | (k', v') :: rest, k, v =>
    if k' == k then (k', v) :: rest
    else (k', v') :: jsMapSet rest k v

/-- `Array.prototype.slice(-n)` on a list: the last `n` elements. -/
def takeLast (n : Nat) (l : List α) : List α := l.drop (l.length - n)

/-! ## Change Actions (Trello board actions) and notification embeds -/

structure ActionLabel where
  name : Option String
  color : Option String
deriving DecidableEq, Repr

structure ActionCheckItem where
  name : Option String
  state : Option String
deriving DecidableEq, Repr

structure ActionListRef where
  name : String
deriving DecidableEq, Repr

/-- `action.data.card`.  For `due`, the outer `Option` distinguishes the field
being absent (JS `undefined`) from being present; the inner `Option`
distinguishes a `null` due date from a string one. -/
structure ActionCardRef where
  id : Option String
  name : Option String
  due : Option (Option String)
deriving DecidableEq, Repr

structure ActionOld where
  due : Option (Option String)
  name : Option String
deriving DecidableEq, Repr

structure ActionChecklist where
  name : Option String
deriving DecidableEq, Repr

structure ActionData where
  card : Option ActionCardRef
  label : Option ActionLabel
  checklist : Option ActionChecklist
  checkItem : Option ActionCheckItem
  old : Option ActionOld
  listBefore : Option ActionListRef
  listAfter : Option ActionListRef
  list : Option ActionListRef
deriving DecidableEq, Repr

/-- A Trello Change Action.  `date` is the epoch-milliseconds timestamp the
ISO `action.date` string parses to. -/
structure TrelloAction where
  id : String
  type : String
  date : Nat
  data : Option ActionData
deriving DecidableEq, Repr

def emptyActionData : ActionData :=
  { card := none, label := none, checklist := none, checkItem := none,
    old := none, listBefore := none, listAfter := none, list := none }

/-- The notification payload built by `formatNotificationEmbed` (the fields of
the Discord embed object the poller sends). -/
structure NotificationEmbed where
  color : Nat
  title : String
  description : String
  footerText : String
  timestamp : String
deriving DecidableEq, Repr

/-- The per-category notification flags (`process.env.NOTIFY_*` checked
against the string `'true'`). -/
structure NotifyConfig where
  labelChanges : Bool
  checklistChanges : Bool
  memberChanges : Bool
  dueDateChanges : Bool
  commentChanges : Bool
deriving DecidableEq, Repr

/-- Abstraction of `new Date(ms).toISOString()`: a fixed injective rendering
of the timestamp. -/
def isoString (ms : Nat) : String := "iso:" ++ toString ms

/-- Abstraction of `new Date(s).toLocaleDateString()` applied to a due-date
string: a fixed function of its input (locale and timezone are fixed for the
process). -/
def localeDateOfString (s : String) : String := "date:" ++ s

/-- JavaScript truthiness on a possibly-absent string (`undefined`, `null`
and `''` are falsy): the truthy string value, if any. -/
def jsTruthyStr : Option String → Option String
  | some s => if s = "" then none else some s
  | none => none

/-- `a || b` for a possibly-absent string against a default. -/
def strOrElse (o : Option String) (d : String) : String :=
  match jsTruthyStr o with
  | some s => s
  | none => d

/-- `TrelloPoller.formatNotificationEmbed` (src/unnamed/part_001 lines
254-382), ported case by case.  Returns `none` exactly where the JavaScript
returns `null`. -/
def formatNotificationEmbed (cfg : NotifyConfig) (action : TrelloAction) :
    Option NotificationEmbed :=
  let mkEmbed : Nat → String → String → NotificationEmbed := fun color title description =>
    { color := color, title := title, description := description,
      footerText := "Trello", timestamp := isoString action.date }
  match action.type with
  | "addLabelToCard" =>
    if !cfg.labelChanges then none else
    let labelName := strOrElse (action.data.bind (·.label) |>.bind (·.name))
      (strOrElse (action.data.bind (·.label) |>.bind (·.color)) "Unknown Label")
    some (mkEmbed 0x61BD4F "🏷️ Label Added"
      ("Label **" ++ labelName ++ "** was added to the card"))
  | "removeLabelFromCard" =>
    if !cfg.labelChanges then none else
    let removedLabel := strOrElse (action.data.bind (·.label) |>.bind (·.name))
      (strOrElse (action.data.bind (·.label) |>.bind (·.color)) "Unknown Label")
    some (mkEmbed 0xEB5A46 "🏷️ Label Removed"
      ("Label **" ++ removedLabel ++ "** was removed from the card"))
  | "addChecklistToCard" =>
    if !cfg.checklistChanges then none else
    let checklistName := strOrElse (action.data.bind (·.checklist) |>.bind (·.name))
      "Unknown Checklist"
    some (mkEmbed 0x0079BF "📋 Checklist Added"
      ("Checklist **" ++ checklistName ++ "** was added to the card"))
  | "updateCheckItemStateOnCard" =>
    if !cfg.checklistChanges then none else
    let checkItem := strOrElse (action.data.bind (·.checkItem) |>.bind (·.name))
      "Unknown Item"
    let isComplete := (action.data.bind (·.checkItem) |>.bind (·.state)) = some "complete"
    let state := if isComplete then "completed" else "marked incomplete"
    let stateEmoji := if isComplete then "✅" else "⬜"
    some (mkEmbed (if isComplete then 0x61BD4F else 0xF2D600)
      (stateEmoji ++ " Checklist Item " ++ (if isComplete then "Completed" else "Updated"))
      ("Checklist item **" ++ checkItem ++ "** was " ++ state))
  | "addMemberToCard" =>
    if !cfg.memberChanges then none else
    some (mkEmbed 0x9F19CC "👤 Member Assigned" "A team member was assigned to this card")
  | "removeMemberFromCard" =>
    if !cfg.memberChanges then none else
    some (mkEmbed 0xC377E0 "👤 Member Unassigned" "A team member was unassigned from this card")
  | "updateCard" =>
    -- the JS body assigns `title`/`description`/`color` in up to three
    -- successive blocks; `acc` tracks the latest assignment, `none` = unset
    let dOld := action.data.bind (·.old) |>.bind (·.due)
    let dNew := action.data.bind (·.card) |>.bind (·.due)
    let dueFieldPresent := dOld.isSome || dNew.isSome
    if dueFieldPresent && !cfg.dueDateChanges then none else
    let acc : Option (Nat × String × String) :=
      if dueFieldPresent then
        let oldDue := jsTruthyStr (dOld.bind id)
        let newDue := jsTruthyStr (dNew.bind id)
        match oldDue, newDue with
        | none, some nd =>
          some (0xF2D600, "📅 Due Date Set",
            "Due date was set to **" ++ localeDateOfString nd ++ "**")
        | some _, none =>
          some (0xEB5A46, "📅 Due Date Removed", "Due date was removed from the card")
        | some od, some nd =>
          if od ≠ nd then
            some (0x0079BF, "📅 Due Date Changed",
              "Due date was updated to **" ++ localeDateOfString nd ++ "**")
          else none
        | none, none => none
      else none
    let acc :=
      match action.data.bind (·.old) |>.bind (·.name) with
      | some oldName =>
        some (0x0079BF, "✏️ Card Renamed", "Card was renamed from **" ++ oldName ++ "**")
      | none => acc
    let acc :=
      match action.data.bind (·.listBefore), action.data.bind (·.listAfter) with
      | some lb, some la =>
        some (0x9F19CC, "🔄 Card Moved",
          "Card was moved from **" ++ lb.name ++ "** to **" ++ la.name ++ "**")
      | _, _ => acc
    match acc with
    | some (color, title, description) => some (mkEmbed color title description)
    | none => none
  | "commentCard" =>
    if !cfg.commentChanges then none else
    some (mkEmbed 0x0079BF "💬 New Comment" "A new comment was added to the card")
  | "moveCardToBoard" =>
    let listName := strOrElse (action.data.bind (·.list) |>.map (·.name))
      (strOrElse (action.data.bind (·.listAfter) |>.map (·.name)) "Unknown List")
    some (mkEmbed 0x9F19CC "🔄 Card Moved" ("Card was moved to **" ++ listName ++ "**"))
  | "moveCardFromBoard" =>
    let listName := strOrElse (action.data.bind (·.list) |>.map (·.name))
      (strOrElse (action.data.bind (·.listAfter) |>.map (·.name)) "Unknown List")
    some (mkEmbed 0x9F19CC "🔄 Card Moved" ("Card was moved to **" ++ listName ++ "**"))
  | _ => none

/-! ## Content hashing (`TrelloPoller.simpleHash` / `createContentHash`) -/

/-- Wrap an integer into JavaScript 32-bit signed range (`x | 0`, `x & x`). -/
def toInt32 (x : Int) : Int := ((x + 2 ^ 31) % 2 ^ 32) - 2 ^ 31

/-- One step of the hash loop: `hash = ((hash << 5) - hash) + char; hash &= hash`.
The shift itself is a 32-bit operation in JavaScript. -/
def hashStep (h : Int) (c : Nat) : Int := toInt32 (toInt32 (h * 32) - h + c)

/-- `TrelloPoller.simpleHash` (part_001 lines 109-117): characters are taken
as their code values and the accumulated 32-bit integer is rendered in
decimal. -/
def simpleHash (s : String) : String :=
  toString (s.data.foldl (fun h c => hashStep h c.toNat) 0)

/-- `TrelloPoller.createContentHash` (part_001 lines 103-107): hash of
`"${embed.title}:${embed.description}"`. -/
def createContentHash (e : NotificationEmbed) : String :=
  simpleHash (e.title ++ ":" ++ e.description)

/-! ## Claim C10: the notification formatter is deterministic -/

/-- C10.  Notification rendering is deterministic: for one fixed Change
Action and fixed configuration-flag values, two invocations of
`formatNotificationEmbed` return identical results (the whole embed —
title, description, color, footer, timestamp — or `none` in both runs), and
consequently identical content hashes, which is what the content-hash
duplicate suppression and the startup rescan rely on. -/
theorem formatNotificationEmbed_deterministic (cfg cfg' : NotifyConfig)
    (a a' : TrelloAction) (hcfg : cfg = cfg') (ha : a = a') :
    formatNotificationEmbed cfg a = formatNotificationEmbed cfg' a' ∧
    (formatNotificationEmbed cfg a).map createContentHash =
      (formatNotificationEmbed cfg' a').map createContentHash := by
  subst hcfg; subst ha; exact ⟨rfl, rfl⟩

def c10ExampleConfig : NotifyConfig :=
  { labelChanges := true, checklistChanges := true, memberChanges := true,
    dueDateChanges := true, commentChanges := true }

def c10ExampleAction : TrelloAction :=
  { id := "act1", type := "addLabelToCard", date := 1700000000000,
    data := some { emptyActionData with
      card := some { id := some "card1", name := some "C", due := none },
      label := some { name := some "urgent", color := some "red" } } }

/-- C10 witness: determinism instantiated at a concrete action and config. -/
theorem formatNotificationEmbed_deterministic_witness :
    formatNotificationEmbed c10ExampleConfig c10ExampleAction =
      formatNotificationEmbed c10ExampleConfig c10ExampleAction ∧
    (formatNotificationEmbed c10ExampleConfig c10ExampleAction).map createContentHash =
      (formatNotificationEmbed c10ExampleConfig c10ExampleAction).map createContentHash :=
  formatNotificationEmbed_deterministic c10ExampleConfig c10ExampleConfig
    c10ExampleAction c10ExampleAction rfl rfl

/-! ## The Change Poller state machine (`TrelloPoller`, src/unnamed/part_001)

The Discord side the poller touches is modelled by `PollWorld`: the (fixed)
`cardThreadMap` of the bot and, per thread, the ordered message list
(oldest first; `thread.send` appends).  `PollerState` holds the two
deduplication caches of the poller.  Deliveries are additionally recorded in
a ghost log of `(cardId, contentHash)` pairs. -/

/-- A message in a Discord thread, as the poller's startup scan sees it:
whether the author is a bot, and its embeds. -/
structure ThreadMsg where
  bot : Bool
  embeds : List NotificationEmbed
deriving DecidableEq, Repr

structure PollWorld where
  cardThread : List (String × String)
  threads : List (String × List ThreadMsg)
deriving DecidableEq, Repr

structure PollerState where
  processedActions : List String
  sentNotifications : List (String × List String)
deriving DecidableEq, Repr

/-- `this.sentNotifications.has(cardId)`. -/
def sentHas (m : List (String × List String)) (c : String) : Bool := jsMapHas m c

/-- `this.sentNotifications.get(cardId)` (defaulting to the empty set). -/
def sentGet (m : List (String × List String)) (c : String) : List String :=
  (jsMapGet m c).getD []

/-- `has(cardId) && get(cardId).has(hash)` — the duplicate-suppression test
of `processAction`. -/
def sentMem (m : List (String × List String)) (c h : String) : Bool :=
  sentHas m c && (sentGet m c).contains h

/-- `if (!has(cardId)) set(cardId, new Set()); get(cardId).add(hash)`:
the hash is added to the card's set in place when the entry exists, and a
fresh one-element entry is appended otherwise. -/
def sentAdd : List (String × List String) → String → String →
    List (String × List String)
  | [], c, h => [(c, [h])]
  | (k, v) :: rest, c, h =>
    if k == c then (k, jsSetAdd v h) :: rest
    else (k, v) :: sentAdd rest c h

/-- `if (!has(cardId)) set(cardId, new Set())` alone (used by the startup
scan, which creates the per-card entry before iterating the messages). -/
def sentEnsure (m : List (String × List String)) (c : String) :
    List (String × List String) :=
  if sentHas m c then m else m ++ [(c, [])]

structure ProcResult where
  world : PollWorld
  state : PollerState
  delivered : List (String × String)
  success : Bool
deriving DecidableEq, Repr

/-- `TrelloPoller.processAction` (part_001 lines 160-204).  Returns `false`
(no mark as processed) when the action has no card id, the card has no
bound thread, the thread cannot be fetched, the embed formatter returns
`null`, or the content hash is a recorded duplicate for that card. -/
def processAction (cfg : NotifyConfig) (w : PollWorld) (st : PollerState)
    (action : TrelloAction) : ProcResult :=
  match action.data.bind (·.card) |>.bind (·.id) with
  | none => ⟨w, st, [], false⟩
  | some cardId =>
    match jsMapGet w.cardThread cardId with
    | none => ⟨w, st, [], false⟩
    | some threadId =>
      match jsMapGet w.threads threadId with
      | none => ⟨w, st, [], false⟩
      | some msgs =>
        match formatNotificationEmbed cfg action with
        | none => ⟨w, st, [], false⟩
        | some embed =>
          let h := createContentHash embed
          if sentMem st.sentNotifications cardId h then ⟨w, st, [], false⟩
          else
            ⟨{ w with threads := jsMapSet w.threads threadId (msgs ++ [⟨true, [embed]⟩]) },
             { st with sentNotifications := sentAdd st.sentNotifications cardId h },
             [(cardId, h)], true⟩

/-- The ascending-timestamp comparison the poller sorts with:
`(a, b) => new Date(a.date) - new Date(b.date)`. -/
def dateLe (a b : TrelloAction) : Prop := a.date ≤ b.date

instance : DecidableRel dateLe := fun a b => Nat.decLe a.date b.date

instance : IsTotal TrelloAction dateLe := ⟨fun a b => Nat.le_total a.date b.date⟩

instance : IsTrans TrelloAction dateLe := ⟨fun _ _ _ h h' => Nat.le_trans h h'⟩

/-- The sort in `checkForUpdates` (part_001 line 139).  JavaScript
`Array.prototype.sort` is stable, so a stable sort by timestamp models it:
equal timestamps keep their API-response arrival order. -/
def sortActions (l : List TrelloAction) : List TrelloAction :=
  List.insertionSort dateLe l

structure PollOutcome where
  world : PollWorld
  state : PollerState
  log : List (String × String)
deriving DecidableEq, Repr

/-- The per-action loop of `checkForUpdates` (lines 141-149): process each
action in sorted order and mark only successful ones as processed. -/
def tickLoop (cfg : NotifyConfig) :
    List TrelloAction → PollWorld → PollerState → List (String × String) → PollOutcome
  | [], w, st, log => ⟨w, st, log⟩
  | a :: rest, w, st, log =>
    let r := processAction cfg w st a
    let st' := if r.success
      then { r.state with processedActions := jsSetAdd r.state.processedActions a.id }
      else r.state
    tickLoop cfg rest r.world st' (log ++ r.delivered)

/-- `TrelloPoller.cleanupOldData` (lines 206-225): keep the last 2000
processed action ids and the last 100 per-card hash sets. -/
def cleanupOldData (st : PollerState) : PollerState :=
  let processed := if st.processedActions.length > 2000
    then takeLast 2000 st.processedActions else st.processedActions
  let sent := if st.sentNotifications.length > 100
    then takeLast 100 st.sentNotifications else st.sentNotifications
  ⟨processed, sent⟩

/-- One successful poll tick of `TrelloPoller.checkForUpdates`
(lines 119-158) on the actions the board returned: id-filter, sort,
process loop, cleanup.  (The checkpoint advance and the error path are
modelled separately by `PollerBackoff`.) -/
def checkForUpdates (cfg : NotifyConfig) (w : PollWorld) (st : PollerState)
    (actions : List TrelloAction) : PollOutcome :=
  let newActions := actions.filter (fun a => !st.processedActions.contains a.id)
  if newActions.isEmpty then ⟨w, st, []⟩
  else
    let r := tickLoop cfg (sortActions newActions) w st []
    ⟨r.world, cleanupOldData r.state, r.log⟩

/-- The hashes the startup scan extracts from a thread:
`messages.fetch({limit: 100})` returns the most recent 100 messages, and
bot-authored messages whose first embed has footer text `'Trello'` are
hashed (part_001 lines 72-101). -/
def scannedHashes (msgs : List ThreadMsg) : List String :=
  (takeLast 100 msgs).filterMap fun m =>
    match m.embeds with
    | e :: _ => if m.bot && (e.footerText == "Trello") then some (createContentHash e) else none
    | [] => none

/-- `TrelloPoller.scanThreadNotifications` applied to a fetched message
list: the per-card entry is created unconditionally, then every scanned
hash is added. -/
def scanThreadNotifications (m : List (String × List String)) (cardId : String)
    (msgs : List ThreadMsg) : List (String × List String) :=
  (scannedHashes msgs).foldl (fun m h => sentAdd m cardId h) (sentEnsure m cardId)

/-- One iteration of the `loadExistingNotifications` loop over a
`(cardId, threadId)` pair: threads that cannot be fetched are skipped (the
`catch` logs and continues). -/
def scanStep (threads : List (String × List ThreadMsg))
    (m : List (String × List String)) (p : String × String) :
    List (String × List String) :=
  match jsMapGet threads p.2 with
  | none => m
  | some msgs => scanThreadNotifications m p.1 msgs

/-- `TrelloPoller.loadExistingNotifications` (lines 46-70): iterate every
`cardThreadMap` pair, scanning each bound thread. -/
def loadExistingNotifications (w : PollWorld) : List (String × List String) :=
  w.cardThread.foldl (scanStep w.threads) []

/-- The events driving a poller replay trace: a poll tick over a batch of
actions, an externally posted thread message, or a process restart (which
empties both caches and re-seeds the content-hash cache by the startup
scan, as `start()` does). -/
inductive PollEvent where
  | tick (actions : List TrelloAction)
  | post (threadId : String) (msg : ThreadMsg)
  | restart
deriving DecidableEq, Repr

def stepEvent (cfg : NotifyConfig) (w : PollWorld) (st : PollerState)
    (log : List (String × String)) : PollEvent → PollOutcome
  | .tick actions =>
    let r := checkForUpdates cfg w st actions
    ⟨r.world, r.state, log ++ r.log⟩
  | .post tid msg =>
    match jsMapGet w.threads tid with
    | none => ⟨w, st, log⟩
    | some msgs => ⟨{ w with threads := jsMapSet w.threads tid (msgs ++ [msg]) }, st, log⟩
  | .restart => ⟨w, ⟨[], loadExistingNotifications w⟩, log⟩

def runEvents (cfg : NotifyConfig) :
    PollWorld → PollerState → List (String × String) → List PollEvent → PollOutcome
  | w, st, log, [] => ⟨w, st, log⟩
  | w, st, log, e :: es =>
    let r := stepEvent cfg w st log e
    runEvents cfg r.world r.state r.log es

/-- Does the startup scan of world `w` recover the content hash of every
delivery recorded in `log`?  (True when every delivered notification is
still among the 100 most recent messages of its card's thread.) -/
def scanCoversB (w : PollWorld) (log : List (String × String)) : Bool :=
  log.all fun p =>
    match jsMapGet w.cardThread p.1 with
    | none => false
    | some tid =>
      match jsMapGet w.threads tid with
      | none => false
      | some msgs => (scannedHashes msgs).contains p.2

/-- The per-event validity guard: a restart is admissible only when the
startup scan recovers every previously delivered notification. -/
def eventGuard (w : PollWorld) (log : List (String × String)) : PollEvent → Bool
  | PollEvent.restart => scanCoversB w log
  | _ => true

/-- A trace is valid when, at each restart, the startup scan recovers every
previously delivered notification. -/
def validTrace (cfg : NotifyConfig) (w : PollWorld) (st : PollerState)
    (log : List (String × String)) : List PollEvent → Bool
  | [] => true
  | e :: es =>
    eventGuard w log e &&
    (let r := stepEvent cfg w st log e
     validTrace cfg r.world r.state r.log es)

/-! ## Claim C2: delivery order of a poll tick -/

/-- Lexicographic comparison of identifiers by character codes. -/
def idLexLe : List Char → List Char → Bool
  | [], _ => true
  | _ :: _, [] => false
  | a :: xs, b :: ys =>
    if a.toNat < b.toNat then true
    else if b.toNat < a.toNat then false
    else idLexLe xs ys

/-- Modelled from the spec's words, for comparison with the source's sort
(`sortActions`): "sort remaining actions by timestamp ascending (ties broken
by identifier)" — timestamp order with a lexicographic identifier
tiebreak. -/
def specTimestampIdLe (a b : TrelloAction) : Prop :=
  a.date < b.date ∨ (a.date = b.date ∧ idLexLe a.id.data b.id.data = true)

instance : DecidableRel specTimestampIdLe := fun _ _ =>
  inferInstanceAs (Decidable (_ ∨ _ ∧ _))

def c2ActionB : TrelloAction :=
  { id := "b", type := "commentCard", date := 5,
    data := some { emptyActionData with
      card := some { id := some "c1", name := none, due := none } } }

def c2ActionA : TrelloAction :=
  { id := "a", type := "commentCard", date := 5,
    data := some { emptyActionData with
      card := some { id := some "c1", name := none, due := none } } }

/-- C2 counterexample: two actions with equal timestamps arriving in
API-response order `["b", "a"]` are kept in that arrival order by the
poller's sort, whereas the claimed identifier tiebreak would deliver
`["a", "b"]` — so the order of equal-timestamp actions IS the API-response
arrival order, not the identifier order. -/
theorem sortActions_no_id_tiebreak :
    sortActions [c2ActionB, c2ActionA] = [c2ActionB, c2ActionA] ∧
    List.insertionSort specTimestampIdLe [c2ActionB, c2ActionA] =
      [c2ActionA, c2ActionB] ∧
    sortActions [c2ActionB, c2ActionA] ≠
      List.insertionSort specTimestampIdLe [c2ActionB, c2ActionA] := by
  decide

theorem filter_date_orderedInsert (a : TrelloAction) (l : List TrelloAction) (d : Nat) :
    (List.orderedInsert dateLe a l).filter (fun x => x.date == d) =
      if a.date == d then a :: l.filter (fun x => x.date == d)
      else l.filter (fun x => x.date == d) := by
  induction l with
  | nil =>
    by_cases h : a.date = d <;> simp [List.orderedInsert, beq_iff_eq, h]
  | cons b t ih =>
    by_cases hab : dateLe a b
    · by_cases had : a.date = d <;> by_cases hbd : b.date = d <;>
        simp [List.orderedInsert, hab, List.filter_cons, beq_iff_eq, had, hbd]
    · have hblt : b.date < a.date := lt_of_not_le hab
      by_cases had : a.date = d
      · have hbd : ¬ b.date = d := by omega
        simp [List.orderedInsert, hab, List.filter_cons, beq_iff_eq, had, hbd, ih]
      · by_cases hbd : b.date = d <;>
          simp [List.orderedInsert, hab, List.filter_cons, beq_iff_eq, had, hbd, ih]

theorem filter_date_insertionSort (l : List TrelloAction) (d : Nat) :
    (List.insertionSort dateLe l).filter (fun x => x.date == d) =
      l.filter (fun x => x.date == d) := by
  induction l with
  | nil => rfl
  | cons a t ih =>
    rw [List.insertionSort, filter_date_orderedInsert]
    by_cases had : a.date = d <;> simp [List.filter_cons, beq_iff_eq, had, ih]

theorem filter_date_sortActions (l : List TrelloAction) (d : Nat) :
    (sortActions l).filter (fun x => x.date == d) = l.filter (fun x => x.date == d) :=
  filter_date_insertionSort l d

/-- C2 amended.  For every batch of new actions in one poll tick, the poller
delivers in the order of `sortActions`, which sorts by timestamp ascending;
but actions carrying equal timestamps keep their API-response arrival order
(the sort is stable) — there is no identifier tiebreak.  Formally: the
sorted batch is ordered by `dateLe`, is a permutation of the input, and for
every timestamp the subsequence of actions carrying it is exactly the
arrival-order subsequence. -/
theorem sortActions_sorted_and_stable (l : List TrelloAction) :
    List.Sorted dateLe (sortActions l) ∧
    List.Perm (sortActions l) l ∧
    ∀ d : Nat, (sortActions l).filter (fun x => x.date == d) =
      l.filter (fun x => x.date == d) :=
  ⟨List.sorted_insertionSort dateLe l, List.perm_insertionSort dateLe l,
    filter_date_sortActions l⟩

/-! ## Claim C4: a recognized action with its notification flag disabled -/

theorem processAction_embed_none (cfg : NotifyConfig) (w : PollWorld)
    (st : PollerState) (a : TrelloAction)
    (h : formatNotificationEmbed cfg a = none) :
    processAction cfg w st a = ⟨w, st, [], false⟩ := by
  unfold processAction
  rcases hid : (a.data.bind (·.card) |>.bind (·.id)) with _ | cardId
  · rfl
  · rcases ht : jsMapGet w.cardThread cardId with _ | threadId
    · simp only [ht]
    · rcases hm : jsMapGet w.threads threadId with _ | msgs
      · simp only [ht, hm]
      · simp only [ht, hm, h]

def c4Config : NotifyConfig :=
  { labelChanges := false, checklistChanges := true, memberChanges := true,
    dueDateChanges := true, commentChanges := true }

def c4World : PollWorld :=
  { cardThread := [("c1", "t1")], threads := [("t1", [])] }

def c4Action : TrelloAction :=
  { id := "a1", type := "addLabelToCard", date := 100,
    data := some { emptyActionData with
      card := some { id := some "c1", name := none, due := none },
      label := some { name := some "x", color := none } } }

/-- C4 counterexample: a poll tick over the single action `a1` of type
`addLabelToCard`, with `notify-label-changes` disabled and the card bound
to an existing thread, leaves the processed-action-id set empty — the
identifier `a1` is NOT added to it (it is only added on a successful
delivery), contradicting the claim that it is nevertheless marked
processed.  (No notification is delivered, as the claim also says.) -/
theorem disabledFlag_id_not_marked_processed :
    (checkForUpdates c4Config c4World ⟨[], []⟩ [c4Action]).state.processedActions = [] ∧
    (checkForUpdates c4Config c4World ⟨[], []⟩ [c4Action]).log = [] ∧
    (checkForUpdates c4Config c4World ⟨[], []⟩ [c4Action]).world = c4World := by
  decide

/-- C4 amended.  When a poll tick yields an action of a recognized type
whose per-category notification flag is disabled (so
`formatNotificationEmbed` returns `none`), no notification is delivered for
it (the world is unchanged and the delivery log stays empty) and its
identifier is NOT added to the processed-action-id set. -/
theorem disabledFlag_skipped_and_not_marked (cfg : NotifyConfig) (w : PollWorld)
    (st : PollerState) (a : TrelloAction)
    (hembed : formatNotificationEmbed cfg a = none)
    (hnew : a.id ∉ st.processedActions) :
    (checkForUpdates cfg w st [a]).world = w ∧
    (checkForUpdates cfg w st [a]).log = [] ∧
    a.id ∉ (checkForUpdates cfg w st [a]).state.processedActions := by
  have hcontains : st.processedActions.contains a.id = false := by
    simpa using hnew
  have hfilter : [a].filter (fun x => !st.processedActions.contains x.id) = [a] := by
    have hb : (!st.processedActions.contains a.id) = true := by rw [hcontains]; rfl
    simp [List.filter_cons, hb]
    exact hnew
  have hloop : tickLoop cfg [a] w st [] = ⟨w, st, []⟩ := by
    unfold tickLoop
    rw [processAction_embed_none cfg w st a hembed]
    rfl
  have hmain : checkForUpdates cfg w st [a] = ⟨w, cleanupOldData st, []⟩ := by
    unfold checkForUpdates
    rw [hfilter]
    show PollOutcome.mk _ _ _ = _
    rw [show sortActions [a] = [a] from rfl, hloop]
  rw [hmain]
  refine ⟨rfl, rfl, ?_⟩
  show a.id ∉ (cleanupOldData st).processedActions
  unfold cleanupOldData
  intro hmem
  simp only at hmem
  split at hmem
  · exact hnew ((List.drop_sublist _ _).subset hmem)
  · exact hnew hmem

def c4StateW : PollerState := { processedActions := ["z9"], sentNotifications := [] }

/-- C4 amended witness: the amended theorem applied at the concrete
disabled-flag scenario. -/
theorem disabledFlag_skipped_and_not_marked_witness :
    formatNotificationEmbed c4Config c4Action = none ∧
    ((checkForUpdates c4Config c4World c4StateW [c4Action]).world = c4World ∧
     (checkForUpdates c4Config c4World c4StateW [c4Action]).log = [] ∧
     c4Action.id ∉ (checkForUpdates c4Config c4World c4StateW [c4Action]).state.processedActions) :=
  ⟨by decide, disabledFlag_skipped_and_not_marked c4Config c4World c4StateW c4Action
    (by decide) (by decide)⟩

/-! ## Claim C9: the backoff controller -/

/-- The failure-handling fields of `TrelloPoller`: the configured base
interval (`this.intervalSeconds`, never reassigned), the interval the
`setInterval` timer currently runs at, the consecutive-failure counter, and
the checkpoint (`this.lastCheckTime`). -/
structure PollerBackoff where
  intervalSeconds : Nat
  timerIntervalSeconds : Nat
  consecutiveErrors : Nat
  lastCheckTime : Nat
deriving DecidableEq, Repr

def maxConsecutiveErrors : Nat := 5

/-- `TrelloPoller.handlePollingError` (part_001 lines 227-252): increment
the counter; at the threshold, restart the timer at double the configured
base interval and reset the counter.  The checkpoint is not touched (a
failed tick leaves `this.lastCheckTime` alone, so the next tick retries the
same window). -/
def handlePollingError (s : PollerBackoff) : PollerBackoff :=
  let s1 := { s with consecutiveErrors := s.consecutiveErrors + 1 }
  if s1.consecutiveErrors ≥ maxConsecutiveErrors then
    { s1 with timerIntervalSeconds := s1.intervalSeconds * 2, consecutiveErrors := 0 }
  else s1

/-- `n` consecutive failed poll ticks. -/
def failTicks : Nat → PollerBackoff → PollerBackoff
  | 0, s => s
  | n + 1, s => failTicks n (handlePollingError s)

/-- C9.  With the failure threshold at 5, six consecutive poll-tick
failures starting from a healthy poller double the effective poll interval
exactly once, upon the 5th failure (after failures 1-4 the timer still runs
at the base interval; after the 5th and the 6th it runs at twice the base
interval, not four times), the consecutive-failure counter is reset to 0 by
the 5th failure (and is 1 after the 6th), and the checkpoint timestamp is
never advanced by a failure. -/
theorem backoff_six_failures (i t : Nat) :
    (failTicks 1 ⟨i, i, 0, t⟩).consecutiveErrors = 1 ∧
    (failTicks 1 ⟨i, i, 0, t⟩).timerIntervalSeconds = i ∧
    (failTicks 2 ⟨i, i, 0, t⟩).consecutiveErrors = 2 ∧
    (failTicks 2 ⟨i, i, 0, t⟩).timerIntervalSeconds = i ∧
    (failTicks 3 ⟨i, i, 0, t⟩).consecutiveErrors = 3 ∧
    (failTicks 3 ⟨i, i, 0, t⟩).timerIntervalSeconds = i ∧
    (failTicks 4 ⟨i, i, 0, t⟩).consecutiveErrors = 4 ∧
    (failTicks 4 ⟨i, i, 0, t⟩).timerIntervalSeconds = i ∧
    (failTicks 5 ⟨i, i, 0, t⟩).consecutiveErrors = 0 ∧
    (failTicks 5 ⟨i, i, 0, t⟩).timerIntervalSeconds = i * 2 ∧
    (failTicks 6 ⟨i, i, 0, t⟩).consecutiveErrors = 1 ∧
    (failTicks 6 ⟨i, i, 0, t⟩).timerIntervalSeconds = i * 2 ∧
    (failTicks 6 ⟨i, i, 0, t⟩).intervalSeconds = i ∧
    (failTicks 1 ⟨i, i, 0, t⟩).lastCheckTime = t ∧
    (failTicks 2 ⟨i, i, 0, t⟩).lastCheckTime = t ∧
    (failTicks 3 ⟨i, i, 0, t⟩).lastCheckTime = t ∧
    (failTicks 4 ⟨i, i, 0, t⟩).lastCheckTime = t ∧
    (failTicks 5 ⟨i, i, 0, t⟩).lastCheckTime = t ∧
    (failTicks 6 ⟨i, i, 0, t⟩).lastCheckTime = t := by
  refine ⟨rfl, rfl, rfl, rfl, rfl, rfl, rfl, rfl, rfl, rfl, rfl, rfl, rfl,
    rfl, rfl, rfl, rfl, rfl, rfl⟩

/-! ## Claim C1: at-most-once delivery per (card, content-hash) pair

Supporting lemmas about the association-list caches, an invariant tying the
ghost delivery log to the content-hash cache, and its preservation along a
replay trace. -/

theorem jsMapGet_mem_of_eq_some {m : List (String × α)} {k : String} {v : α}
    (h : jsMapGet m k = some v) : (k, v) ∈ m := by
  induction m with
  | nil => cases h
  | cons p rest ih =>
    obtain ⟨k', v'⟩ := p
    simp only [jsMapGet] at h
    split at h
    · next hbeq =>
      have hk : k' = k := by simpa using hbeq
      injection h with hv
      subst hk
      subst hv
      exact List.mem_cons_self _ _
    · exact List.mem_cons_of_mem _ (ih h)

theorem mem_keys_of_jsMapGet {m : List (String × α)} {k : String} {v : α}
    (h : jsMapGet m k = some v) : k ∈ m.map Prod.fst :=
  List.mem_map.mpr ⟨(k, v), jsMapGet_mem_of_eq_some h, rfl⟩

/-- `sentMem` as a function of the lookup result alone. -/
def sentMemOf : Option (List String) → String → Bool
  | some hs, h => hs.contains h
  | none, _ => false

theorem sentMem_eq_of (m : List (String × List String)) (c h : String) :
    sentMem m c h = sentMemOf (jsMapGet m c) h := by
  unfold sentMem sentHas sentGet jsMapHas sentMemOf
  rcases hg : jsMapGet m c with _ | hs <;> simp

theorem mem_jsSetAdd_self (s : List String) (x : String) : x ∈ jsSetAdd s x := by
  unfold jsSetAdd
  split
  · next hc => simpa using hc
  · simp

theorem mem_jsSetAdd_of_mem {s : List String} {x : String} (y : String)
    (h : x ∈ s) : x ∈ jsSetAdd s y := by
  unfold jsSetAdd
  split
  · exact h
  · simp [h]

theorem jsMapGet_sentAdd_self (m : List (String × List String)) (c h : String) :
    jsMapGet (sentAdd m c h) c = some (jsSetAdd (sentGet m c) h) := by
  induction m with
  | nil => simp [sentAdd, jsMapGet, sentGet, jsSetAdd]
  | cons p rest ih =>
    obtain ⟨k, v⟩ := p
    by_cases hk : k = c
    · subst hk
      simp [sentAdd, jsMapGet, sentGet]
    · simp [sentAdd, jsMapGet, sentGet, hk, ih]

theorem jsMapGet_sentAdd_ne (m : List (String × List String)) (c h c' : String)
    (hne : c' ≠ c) : jsMapGet (sentAdd m c h) c' = jsMapGet m c' := by
  induction m with
  | nil =>
    simp [sentAdd, jsMapGet, hne.symm]
  | cons p rest ih =>
    obtain ⟨k, v⟩ := p
    by_cases hk : k = c
    · subst hk
      simp [sentAdd, jsMapGet, hne.symm]
    · simp [sentAdd, jsMapGet, hk, ih]

theorem sentMem_sentAdd_self (m : List (String × List String)) (c h : String) :
    sentMem (sentAdd m c h) c h = true := by
  rw [sentMem_eq_of, jsMapGet_sentAdd_self]
  simpa [sentMemOf] using mem_jsSetAdd_self (sentGet m c) h

theorem sentMem_sentAdd_mono (m : List (String × List String)) (c h c' h' : String)
    (hm : sentMem m c' h' = true) : sentMem (sentAdd m c h) c' h' = true := by
  by_cases hc : c' = c
  · subst hc
    rw [sentMem_eq_of] at hm
    rcases hg : jsMapGet m c' with _ | hs
    · rw [hg] at hm; cases hm
    · rw [hg] at hm
      rw [sentMem_eq_of, jsMapGet_sentAdd_self]
      have hmem : h' ∈ hs := by simpa [sentMemOf] using hm
      have hget : sentGet m c' = hs := by unfold sentGet; rw [hg]; rfl
      simpa [sentMemOf, hget] using mem_jsSetAdd_of_mem h hmem
  · rw [sentMem_eq_of, jsMapGet_sentAdd_ne m c h c' hc, ← sentMem_eq_of]
    exact hm

theorem jsMapGet_append (m₁ m₂ : List (String × α)) (k : String) :
    jsMapGet (m₁ ++ m₂) k =
      match jsMapGet m₁ k with
      | some v => some v
      | none => jsMapGet m₂ k := by
  induction m₁ with
  | nil => rfl
  | cons p rest ih =>
    obtain ⟨k', v⟩ := p
    by_cases hk : k' = k <;> simp [jsMapGet, hk, ih]

theorem sentHas_eq_isSome (m : List (String × List String)) (c : String) :
    sentHas m c = (jsMapGet m c).isSome := rfl

theorem jsMapGet_sentEnsure_self (m : List (String × List String)) (c : String) :
    jsMapGet (sentEnsure m c) c = some (sentGet m c) := by
  unfold sentEnsure
  by_cases hh : sentHas m c = true
  · rw [if_pos hh]
    rw [sentHas_eq_isSome] at hh
    rcases hg : jsMapGet m c with _ | hs
    · rw [hg] at hh; cases hh
    · unfold sentGet; rw [hg]; rfl
  · rw [if_neg hh]
    rw [sentHas_eq_isSome] at hh
    have hg : jsMapGet m c = none := by
      rcases hg : jsMapGet m c with _ | hs
      · rfl
      · rw [hg] at hh; simp at hh
    rw [jsMapGet_append, hg]
    unfold sentGet
    rw [hg]
    simp [jsMapGet]

theorem jsMapGet_sentEnsure_ne (m : List (String × List String)) (c c' : String)
    (hne : c' ≠ c) : jsMapGet (sentEnsure m c) c' = jsMapGet m c' := by
  unfold sentEnsure
  split
  · rfl
  · rw [jsMapGet_append]
    rcases hg : jsMapGet m c' with _ | hs
    · simp [jsMapGet, hne.symm]
    · rfl

theorem sentMem_sentEnsure_mono (m : List (String × List String)) (c c' h' : String)
    (hm : sentMem m c' h' = true) : sentMem (sentEnsure m c) c' h' = true := by
  by_cases hc : c' = c
  · subst hc
    rw [sentMem_eq_of] at hm
    rcases hg : jsMapGet m c' with _ | hs
    · rw [hg] at hm; cases hm
    · rw [hg] at hm
      rw [sentMem_eq_of, jsMapGet_sentEnsure_self]
      have hget : sentGet m c' = hs := by unfold sentGet; rw [hg]; rfl
      rw [hget]
      exact hm
  · rw [sentMem_eq_of, jsMapGet_sentEnsure_ne m c c' hc, ← sentMem_eq_of]
    exact hm

theorem sentAdd_cons_eq (k : String) (v : List String)
    (rest : List (String × List String)) (h : String) :
    sentAdd ((k, v) :: rest) k h = (k, jsSetAdd v h) :: rest := by
  simp [sentAdd]

theorem sentAdd_cons_ne (k : String) (v : List String)
    (rest : List (String × List String)) (c h : String) (hk : k ≠ c) :
    sentAdd ((k, v) :: rest) c h = (k, v) :: sentAdd rest c h := by
  simp [sentAdd, hk]

theorem keys_sentAdd_sub (m : List (String × List String)) (c h : String) :
    ∀ x ∈ (sentAdd m c h).map Prod.fst, x ∈ m.map Prod.fst ∨ x = c := by
  induction m with
  | nil => intro x hx; right; simpa [sentAdd] using hx
  | cons p rest ih =>
    obtain ⟨k, v⟩ := p
    by_cases hk : k = c
    · subst hk
      intro x hx
      left
      simpa [sentAdd_cons_eq] using hx
    · intro x hx
      rw [sentAdd_cons_ne k v rest c h hk, List.map_cons] at hx
      rcases List.mem_cons.mp hx with rfl | hx
      · left; simp
      · rcases ih x hx with hx' | rfl
        · left; simp [hx']
        · right; rfl

theorem keys_sentAdd_nodup (m : List (String × List String)) (c h : String)
    (hn : (m.map Prod.fst).Nodup) : ((sentAdd m c h).map Prod.fst).Nodup := by
  induction m with
  | nil => simp [sentAdd]
  | cons p rest ih =>
    obtain ⟨k, v⟩ := p
    simp only [List.map_cons, List.nodup_cons] at hn
    by_cases hk : k = c
    · subst hk
      rw [sentAdd_cons_eq, List.map_cons]
      exact List.nodup_cons.mpr hn
    · rw [sentAdd_cons_ne k v rest c h hk, List.map_cons]
      refine List.nodup_cons.mpr ⟨fun hmem => ?_, ih hn.2⟩
      rcases keys_sentAdd_sub rest c h k hmem with hx | rfl
      · exact hn.1 hx
      · exact hk rfl

theorem keys_sentEnsure_sub (m : List (String × List String)) (c : String) :
    ∀ x ∈ (sentEnsure m c).map Prod.fst, x ∈ m.map Prod.fst ∨ x = c := by
  unfold sentEnsure
  split
  · intro x hx; left; exact hx
  · intro x hx
    simp only [List.map_append, List.mem_append] at hx
    rcases hx with hx | hx
    · left; exact hx
    · right; simpa using hx

theorem jsMapGet_isSome_of_mem_keys {m : List (String × α)} {k : String}
    (hmem : k ∈ m.map Prod.fst) : (jsMapGet m k).isSome = true := by
  induction m with
  | nil => cases hmem
  | cons q rest ih =>
    obtain ⟨k', v'⟩ := q
    rw [List.map_cons] at hmem
    rcases List.mem_cons.mp hmem with heq | hp'
    · subst heq
      simp [jsMapGet]
    · by_cases hk : k' = k
      · subst hk; simp [jsMapGet]
      · rw [show jsMapGet ((k', v') :: rest) k = jsMapGet rest k by simp [jsMapGet, hk]]
        exact ih hp'

theorem sentHas_false_not_mem_keys (m : List (String × List String)) (c : String)
    (hh : ¬ sentHas m c = true) : c ∉ m.map Prod.fst := by
  intro hmem
  exact hh (jsMapGet_isSome_of_mem_keys hmem)

theorem keys_sentEnsure_nodup (m : List (String × List String)) (c : String)
    (hn : (m.map Prod.fst).Nodup) : ((sentEnsure m c).map Prod.fst).Nodup := by
  unfold sentEnsure
  split
  · exact hn
  · next hh =>
    simp only [List.map_append, List.map_cons, List.map_nil]
    rw [List.nodup_append]
    refine ⟨hn, List.nodup_singleton c, fun x hx hx' => ?_⟩
    have hxc : x = c := by simpa using hx'
    subst hxc
    exact sentHas_false_not_mem_keys m x hh hx

theorem sentMem_foldl_sentAdd_mono (hs : List String) (c : String) :
    ∀ (m : List (String × List String)) (c' h' : String), sentMem m c' h' = true →
      sentMem (hs.foldl (fun acc x => sentAdd acc c x) m) c' h' = true := by
  induction hs with
  | nil => intro m c' h' hm; exact hm
  | cons h₀ t ih =>
    intro m c' h' hm
    exact ih _ _ _ (sentMem_sentAdd_mono m c h₀ c' h' hm)

theorem sentMem_foldl_sentAdd_of_mem (hs : List String) (c h : String)
    (hh : h ∈ hs) :
    ∀ m, sentMem (hs.foldl (fun acc x => sentAdd acc c x) m) c h = true := by
  induction hs with
  | nil => cases hh
  | cons h₀ t ih =>
    intro m
    rcases List.mem_cons.mp hh with rfl | hmem
    · exact sentMem_foldl_sentAdd_mono t c _ _ _ (sentMem_sentAdd_self m c h)
    · exact ih hmem _

theorem keys_foldl_sentAdd_sub (hs : List String) (c : String) :
    ∀ m x, x ∈ ((hs.foldl (fun acc y => sentAdd acc c y) m).map Prod.fst) →
      x ∈ m.map Prod.fst ∨ x = c := by
  induction hs with
  | nil => intro m x hx; left; exact hx
  | cons h₀ t ih =>
    intro m x hx
    rcases ih _ x hx with hx' | rfl
    · exact keys_sentAdd_sub m c h₀ x hx'
    · right; rfl

theorem keys_foldl_sentAdd_nodup (hs : List String) (c : String) :
    ∀ m, (m.map Prod.fst).Nodup →
      ((hs.foldl (fun acc y => sentAdd acc c y) m).map Prod.fst).Nodup := by
  induction hs with
  | nil => intro m hn; exact hn
  | cons h₀ t ih =>
    intro m hn
    exact ih _ (keys_sentAdd_nodup m c h₀ hn)

theorem sentMem_scanThread_of_mem (m : List (String × List String)) (c : String)
    (msgs : List ThreadMsg) (h : String) (hh : h ∈ scannedHashes msgs) :
    sentMem (scanThreadNotifications m c msgs) c h = true :=
  sentMem_foldl_sentAdd_of_mem (scannedHashes msgs) c h hh (sentEnsure m c)

theorem sentMem_scanThread_mono (m : List (String × List String)) (c : String)
    (msgs : List ThreadMsg) (c' h' : String) (hm : sentMem m c' h' = true) :
    sentMem (scanThreadNotifications m c msgs) c' h' = true :=
  sentMem_foldl_sentAdd_mono (scannedHashes msgs) c (sentEnsure m c) c' h'
    (sentMem_sentEnsure_mono m c c' h' hm)

theorem keys_scanThread_sub (m : List (String × List String)) (c : String)
    (msgs : List ThreadMsg) :
    ∀ x ∈ ((scanThreadNotifications m c msgs).map Prod.fst),
      x ∈ m.map Prod.fst ∨ x = c := by
  intro x hx
  rcases keys_foldl_sentAdd_sub (scannedHashes msgs) c (sentEnsure m c) x hx with hx' | rfl
  · exact keys_sentEnsure_sub m c x hx'
  · right; rfl

theorem keys_scanThread_nodup (m : List (String × List String)) (c : String)
    (msgs : List ThreadMsg) (hn : (m.map Prod.fst).Nodup) :
    ((scanThreadNotifications m c msgs).map Prod.fst).Nodup :=
  keys_foldl_sentAdd_nodup (scannedHashes msgs) c (sentEnsure m c)
    (keys_sentEnsure_nodup m c hn)

theorem sentMem_scanStep_mono (threads : List (String × List ThreadMsg))
    (m : List (String × List String)) (p : String × String) (c' h' : String)
    (hm : sentMem m c' h' = true) : sentMem (scanStep threads m p) c' h' = true := by
  unfold scanStep
  rcases hg : jsMapGet threads p.2 with _ | msgs
  · exact hm
  · exact sentMem_scanThread_mono m p.1 msgs c' h' hm

theorem sentMem_foldl_scanStep_mono (threads : List (String × List ThreadMsg))
    (prs : List (String × String)) :
    ∀ m c' h', sentMem m c' h' = true →
      sentMem (prs.foldl (scanStep threads) m) c' h' = true := by
  induction prs with
  | nil => intro m c' h' hm; exact hm
  | cons p rest ih =>
    intro m c' h' hm
    exact ih _ _ _ (sentMem_scanStep_mono threads m p c' h' hm)

theorem sentMem_foldl_scanStep_covers (threads : List (String × List ThreadMsg))
    (prs : List (String × String)) :
    ∀ m c tid msgs h, (c, tid) ∈ prs → jsMapGet threads tid = some msgs →
      h ∈ scannedHashes msgs →
      sentMem (prs.foldl (scanStep threads) m) c h = true := by
  induction prs with
  | nil => intro _ _ _ _ _ hmem; cases hmem
  | cons p rest ih =>
    intro m c tid msgs h hmem hget hh
    rcases List.mem_cons.mp hmem with heq | hmem'
    · subst heq
      have hcov : sentMem (scanStep threads m (c, tid)) c h = true := by
        unfold scanStep
        rw [hget]
        exact sentMem_scanThread_of_mem m c msgs h hh
      exact sentMem_foldl_scanStep_mono threads rest _ c h hcov
    · exact ih _ c tid msgs h hmem' hget hh

theorem keys_scanStep_sub (threads : List (String × List ThreadMsg))
    (m : List (String × List String)) (p : String × String) :
    ∀ x ∈ ((scanStep threads m p).map Prod.fst), x ∈ m.map Prod.fst ∨ x = p.1 := by
  unfold scanStep
  rcases hg : jsMapGet threads p.2 with _ | msgs
  · intro x hx; left; exact hx
  · exact keys_scanThread_sub m p.1 msgs

theorem keys_scanStep_nodup (threads : List (String × List ThreadMsg))
    (m : List (String × List String)) (p : String × String)
    (hn : (m.map Prod.fst).Nodup) : ((scanStep threads m p).map Prod.fst).Nodup := by
  unfold scanStep
  rcases hg : jsMapGet threads p.2 with _ | msgs
  · exact hn
  · exact keys_scanThread_nodup m p.1 msgs hn

theorem keys_foldl_scanStep_sub (threads : List (String × List ThreadMsg))
    (prs : List (String × String)) :
    ∀ m x, x ∈ ((prs.foldl (scanStep threads) m).map Prod.fst) →
      x ∈ m.map Prod.fst ∨ ∃ p ∈ prs, x = p.1 := by
  induction prs with
  | nil => intro m x hx; left; exact hx
  | cons p rest ih =>
    intro m x hx
    rcases ih _ x hx with hx' | ⟨q, hq, rfl⟩
    · rcases keys_scanStep_sub threads m p x hx' with hx'' | rfl
      · left; exact hx''
      · right; exact ⟨p, List.mem_cons_self _ _, rfl⟩
    · right; exact ⟨q, List.mem_cons_of_mem _ hq, rfl⟩

theorem keys_foldl_scanStep_nodup (threads : List (String × List ThreadMsg))
    (prs : List (String × String)) :
    ∀ m, (m.map Prod.fst).Nodup →
      ((prs.foldl (scanStep threads) m).map Prod.fst).Nodup := by
  induction prs with
  | nil => intro m hn; exact hn
  | cons p rest ih =>
    intro m hn
    exact ih _ (keys_scanStep_nodup threads m p hn)

/-- The replay invariant: every delivered `(card, hash)` pair is recorded in
the content-hash cache, the cache has no duplicate card entries and only
mentions bound cards, and no pair has been delivered twice. -/
structure PollInv (w : PollWorld) (st : PollerState)
    (log : List (String × String)) : Prop where
  covered : ∀ p ∈ log, sentMem st.sentNotifications p.1 p.2 = true
  keysNodup : (st.sentNotifications.map Prod.fst).Nodup
  keysSub : ∀ k ∈ st.sentNotifications.map Prod.fst, k ∈ w.cardThread.map Prod.fst
  atMostOnce : ∀ p : String × String, log.count p ≤ 1

theorem pollInv_of_sent_eq {w : PollWorld} {st st' : PollerState}
    {log : List (String × String)} (h : PollInv w st log)
    (he : st'.sentNotifications = st.sentNotifications) : PollInv w st' log :=
  ⟨fun p hp => by rw [he]; exact h.covered p hp,
   by rw [he]; exact h.keysNodup,
   fun k hk => h.keysSub k (by rwa [he] at hk),
   h.atMostOnce⟩

theorem pollInv_threads_update {w : PollWorld} {st : PollerState}
    {log : List (String × String)} (h : PollInv w st log)
    (threads' : List (String × List ThreadMsg)) :
    PollInv { w with threads := threads' } st log :=
  ⟨h.covered, h.keysNodup, h.keysSub, h.atMostOnce⟩

theorem processAction_inv (cfg : NotifyConfig) (w : PollWorld) (st : PollerState)
    (log : List (String × String)) (a : TrelloAction) (hInv : PollInv w st log) :
    PollInv (processAction cfg w st a).world (processAction cfg w st a).state
      (log ++ (processAction cfg w st a).delivered) ∧
    (processAction cfg w st a).world.cardThread = w.cardThread := by
  unfold processAction
  rcases hid : (a.data.bind (·.card) |>.bind (·.id)) with _ | cardId
  · exact ⟨by simpa using hInv, rfl⟩
  rcases hth : jsMapGet w.cardThread cardId with _ | threadId
  · simp only [hth]
    exact ⟨by simpa using hInv, by trivial⟩
  rcases hms : jsMapGet w.threads threadId with _ | msgs
  · simp only [hth, hms]
    exact ⟨by simpa using hInv, by trivial⟩
  rcases hem : formatNotificationEmbed cfg a with _ | embed
  · simp only [hth, hms, hem]
    exact ⟨by simpa using hInv, by trivial⟩
  simp only [hth, hms, hem]
  by_cases hdup : sentMem st.sentNotifications cardId (createContentHash embed) = true
  · rw [if_pos hdup]
    exact ⟨by simpa using hInv, by trivial⟩
  · rw [if_neg hdup]
    refine ⟨⟨?_, ?_, ?_, ?_⟩, rfl⟩
    · intro p hp
      rcases List.mem_append.mp hp with hpl | hps
      · exact sentMem_sentAdd_mono _ _ _ _ _ (hInv.covered p hpl)
      · have hpe : p = (cardId, createContentHash embed) := by simpa using hps
        subst hpe
        exact sentMem_sentAdd_self _ _ _
    · exact keys_sentAdd_nodup _ _ _ hInv.keysNodup
    · intro k hk
      rcases keys_sentAdd_sub _ _ _ k hk with hk' | rfl
      · exact hInv.keysSub k hk'
      · exact mem_keys_of_jsMapGet hth
    · intro p
      rw [List.count_append]
      by_cases hp : p = (cardId, createContentHash embed)
      · subst hp
        have hnotin : (cardId, createContentHash embed) ∉ log := fun hin =>
          hdup (by simpa using hInv.covered _ hin)
        rw [List.count_eq_zero.mpr hnotin]
        simp [List.count_singleton]
      · have hz : List.count p [(cardId, createContentHash embed)] = 0 :=
          List.count_eq_zero.mpr (by simpa using hp)
        rw [hz]
        have := hInv.atMostOnce p
        omega

theorem tickLoop_cons (cfg : NotifyConfig) (a : TrelloAction)
    (rest : List TrelloAction) (w : PollWorld) (st : PollerState)
    (log : List (String × String)) :
    tickLoop cfg (a :: rest) w st log =
      tickLoop cfg rest (processAction cfg w st a).world
        (if (processAction cfg w st a).success
          then { (processAction cfg w st a).state with
            processedActions :=
              jsSetAdd (processAction cfg w st a).state.processedActions a.id }
          else (processAction cfg w st a).state)
        (log ++ (processAction cfg w st a).delivered) := rfl

theorem tickLoop_inv (cfg : NotifyConfig) (l : List TrelloAction) :
    ∀ w st lg pre, PollInv w st (pre ++ lg) →
      PollInv (tickLoop cfg l w st lg).world (tickLoop cfg l w st lg).state
        (pre ++ (tickLoop cfg l w st lg).log) ∧
      (tickLoop cfg l w st lg).world.cardThread = w.cardThread := by
  induction l with
  | nil => intro w st lg pre h; exact ⟨h, rfl⟩
  | cons a rest ih =>
    intro w st lg pre h
    rw [tickLoop_cons]
    obtain ⟨hInv', hct⟩ := processAction_inv cfg w st (pre ++ lg) a h
    rw [List.append_assoc] at hInv'
    have hsent : (if (processAction cfg w st a).success
        then { (processAction cfg w st a).state with
          processedActions :=
            jsSetAdd (processAction cfg w st a).state.processedActions a.id }
        else (processAction cfg w st a).state).sentNotifications =
        (processAction cfg w st a).state.sentNotifications := by
      split <;> rfl
    obtain ⟨hres, hct'⟩ := ih _ _ _ pre (pollInv_of_sent_eq hInv' hsent)
    exact ⟨hres, hct'.trans hct⟩

theorem sent_length_le {w : PollWorld} {st : PollerState}
    {log : List (String × String)} (h : PollInv w st log)
    (hlen : w.cardThread.length ≤ 100) : ¬ st.sentNotifications.length > 100 := by
  have h1 : (st.sentNotifications.map Prod.fst).length ≤
      (w.cardThread.map Prod.fst).length :=
    (h.keysNodup.subperm (fun x hx => h.keysSub x hx)).length_le
  rw [List.length_map, List.length_map] at h1
  omega

theorem cleanup_inv {w : PollWorld} {st : PollerState}
    {log : List (String × String)} (h : PollInv w st log)
    (hlen : w.cardThread.length ≤ 100) : PollInv w (cleanupOldData st) log := by
  apply pollInv_of_sent_eq h
  unfold cleanupOldData
  simp only
  rw [if_neg (sent_length_le h hlen)]

theorem checkForUpdates_inv (cfg : NotifyConfig) (w : PollWorld) (st : PollerState)
    (log : List (String × String)) (actions : List TrelloAction)
    (h : PollInv w st log) (hlen : w.cardThread.length ≤ 100) :
    PollInv (checkForUpdates cfg w st actions).world
      (checkForUpdates cfg w st actions).state
      (log ++ (checkForUpdates cfg w st actions).log) ∧
    (checkForUpdates cfg w st actions).world.cardThread = w.cardThread := by
  unfold checkForUpdates
  dsimp only
  split
  · exact ⟨by simpa using h, rfl⟩
  · simp only
    have h0 : PollInv w st (log ++ []) := by simpa using h
    obtain ⟨hr, hct⟩ := tickLoop_inv cfg
      (sortActions (actions.filter (fun a => !st.processedActions.contains a.id)))
      w st [] log h0
    exact ⟨cleanup_inv hr (by rw [hct]; exact hlen), hct⟩

theorem restart_inv (w : PollWorld) (st : PollerState)
    (log : List (String × String)) (h : PollInv w st log)
    (hval : scanCoversB w log = true) :
    PollInv w ⟨[], loadExistingNotifications w⟩ log := by
  refine ⟨?_, ?_, ?_, h.atMostOnce⟩
  · intro p hp
    have hf := List.all_eq_true.mp hval p hp
    rcases hth : jsMapGet w.cardThread p.1 with _ | tid
    · simp [hth] at hf
    rcases hms : jsMapGet w.threads tid with _ | msgs
    · simp [hth, hms] at hf
    have hhash : p.2 ∈ scannedHashes msgs := by simpa [hth, hms] using hf
    exact sentMem_foldl_scanStep_covers w.threads w.cardThread [] p.1 tid msgs p.2
      (jsMapGet_mem_of_eq_some hth) hms hhash
  · exact keys_foldl_scanStep_nodup w.threads w.cardThread [] (by simp)
  · intro k hk
    rcases keys_foldl_scanStep_sub w.threads w.cardThread [] k hk with hk' | ⟨p, hp, rfl⟩
    · simp at hk'
    · exact List.mem_map.mpr ⟨p, hp, rfl⟩

theorem stepEvent_inv (cfg : NotifyConfig) (w : PollWorld) (st : PollerState)
    (log : List (String × String)) (e : PollEvent) (h : PollInv w st log)
    (hlen : w.cardThread.length ≤ 100)
    (hval : eventGuard w log e = true) :
    PollInv (stepEvent cfg w st log e).world (stepEvent cfg w st log e).state
      (stepEvent cfg w st log e).log ∧
    (stepEvent cfg w st log e).world.cardThread = w.cardThread := by
  cases e with
  | tick actions =>
    exact checkForUpdates_inv cfg w st log actions h hlen
  | post tid msg =>
    unfold stepEvent
    rcases hms : jsMapGet w.threads tid with _ | msgs
    · simp only [hms]
      exact ⟨h, by trivial⟩
    · simp only [hms]
      exact ⟨pollInv_threads_update h _, by trivial⟩
  | restart =>
    exact ⟨restart_inv w st log h (by simpa [eventGuard] using hval), rfl⟩

theorem runEvents_inv (cfg : NotifyConfig) (events : List PollEvent) :
    ∀ w st log, PollInv w st log → w.cardThread.length ≤ 100 →
      validTrace cfg w st log events = true →
      PollInv (runEvents cfg w st log events).world
        (runEvents cfg w st log events).state
        (runEvents cfg w st log events).log := by
  induction events with
  | nil => intro w st log h _ _; exact h
  | cons e es ih =>
    intro w st log h hlen hval
    have hval' : (eventGuard w log e &&
        validTrace cfg (stepEvent cfg w st log e).world
          (stepEvent cfg w st log e).state (stepEvent cfg w st log e).log es) = true := hval
    rw [Bool.and_eq_true] at hval'
    obtain ⟨hstep, hct⟩ := stepEvent_inv cfg w st log e h hlen hval'.1
    have hrun : runEvents cfg w st log (e :: es) =
        runEvents cfg (stepEvent cfg w st log e).world (stepEvent cfg w st log e).state
          (stepEvent cfg w st log e).log es := rfl
    rw [hrun]
    exact ih _ _ _ hstep (by rw [hct]; exact hlen) hval'.2

/-- C1 amended.  For a fixed set of Change Actions replayed any number of
times — modelled as an arbitrary trace of poll ticks, external thread
messages and process restarts — each distinct `(card, content-hash)` pair is
delivered at most once, PROVIDED that (a) at most 100 cards are bound to
threads, so the 100-card cap of `cleanupOldData` never evicts a per-card
hash set, and (b) at every restart the startup scan recovers every
previously delivered notification (the scan reads only the 100 most recent
messages of each bound thread, and only then re-seeds the content-hash
cache with the hashes the claim relies on).  Without proviso (b) the claim
fails: see the counterexample, in which a delivered notification has fallen
outside the 100-message scan window before a restart and the same pair is
delivered a second time. -/
theorem pollReplay_atMostOnce (cfg : NotifyConfig) (w : PollWorld)
    (events : List PollEvent) (hlen : w.cardThread.length ≤ 100)
    (hvalid : validTrace cfg w ⟨[], []⟩ [] events = true) :
    ∀ p : String × String,
      ((runEvents cfg w ⟨[], []⟩ [] events).log).count p ≤ 1 := by
  have h0 : PollInv w ⟨[], []⟩ [] :=
    ⟨fun p hp => absurd hp (List.not_mem_nil p), by simp,
     fun k hk => absurd hk (List.not_mem_nil k), fun p => by simp⟩
  exact (runEvents_inv cfg events w ⟨[], []⟩ [] h0 hlen hvalid).atMostOnce

def c1Config : NotifyConfig :=
  { labelChanges := true, checklistChanges := true, memberChanges := true,
    dueDateChanges := true, commentChanges := true }

def c1Action : TrelloAction :=
  { id := "a1", type := "addLabelToCard", date := 1,
    data := some { emptyActionData with
      card := some { id := some "c1", name := none, due := none },
      label := some { name := some "x", color := none } } }

def c1World : PollWorld :=
  { cardThread := [("c1", "t1")], threads := [("t1", [])] }

/-- The embed `formatNotificationEmbed` renders for `c1Action`, and its
content hash. -/
def c1Embed : NotificationEmbed :=
  { color := 0x61BD4F, title := "🏷️ Label Added",
    description := "Label **x** was added to the card", footerText := "Trello",
    timestamp := isoString 1 }

def c1Hash : String := createContentHash c1Embed

/-- A human (non-bot) thread message. -/
def c1HumanMsg : ThreadMsg := { bot := false, embeds := [] }

/-- The C1 counterexample trace: deliver once, let 100 human messages push
the notification out of the scan window, restart, replay the same action. -/
def c1Events : List PollEvent :=
  PollEvent.tick [c1Action] ::
    (List.replicate 100 (PollEvent.post "t1" c1HumanMsg) ++
      [PollEvent.restart, PollEvent.tick [c1Action]])

set_option maxRecDepth 100000 in
/-- C1 counterexample: replaying the single fixed action `a1` across a
restart delivers the pair `(c1, hash)` twice.  After the first delivery,
100 human messages are posted to the thread; the startup rescan fetches
only the 100 most recent messages, so it re-creates an EMPTY hash set for
the card (the notification is the 101st message from the end), the
processed-action-id set is empty in the new process, and the replayed
action is delivered again — the distinct pair is delivered twice, not at
most once. -/
theorem restartScanWindow_redelivers :
    ((runEvents c1Config c1World ⟨[], []⟩ [] c1Events).log).count ("c1", c1Hash) = 2 := by
  decide

def c1WitnessEvents : List PollEvent :=
  [PollEvent.tick [c1Action], PollEvent.restart, PollEvent.tick [c1Action]]

set_option maxRecDepth 100000 in
/-- C1 amended witness: the amended theorem applied to a concrete replay
across a restart whose scan does recover the delivered notification. -/
theorem pollReplay_atMostOnce_witness :
    (c1World.cardThread.length ≤ 100 ∧
      validTrace c1Config c1World ⟨[], []⟩ [] c1WitnessEvents = true) ∧
    ((runEvents c1Config c1World ⟨[], []⟩ [] c1WitnessEvents).log).count ("c1", c1Hash) ≤ 1 :=
  ⟨⟨by decide, by decide⟩,
    pollReplay_atMostOnce c1Config c1World c1WitnessEvents (by decide) (by decide)
      ("c1", c1Hash)⟩

/-! ## The Attachment Reconciler
(`DiscordTrelloBot.updateCardWithAllMessages`, attachment phase,
src/index.js lines 306-440)

Candidates are drawn per message from three sources in order: Discord
attachments, embed-derived links, and bare URLs scanned from the body text.
The first two check and record both the url forms and the display name
(`named = true`); the bare-URL branch checks and records only the url forms
(`named = false`).  Each `add attachment` call may fail (the `try/catch`
logs and continues); a per-call success oracle models the remote outcome,
and a ghost log records every issued call. -/

structure Attachment where
  url : String
  name : String
  contentType : Option String
deriving DecidableEq, Repr

structure MsgEmbed where
  type : String
  url : Option String
  title : Option String
  image : Option String
  video : Option String
deriving DecidableEq, Repr

structure Msg where
  id : String
  author : String
  authorBot : Bool
  content : String
  attachments : List Attachment
  embeds : List MsgEmbed
  createdTimestamp : Nat
deriving DecidableEq, Repr

/-- The characters before the first `'?'`. -/
def beforeQuery : List Char → List Char
  | [] => []
  | c :: cs => if c = '?' then [] else c :: beforeQuery cs

/-- `url.split('?')[0]` — the normalized base-url. -/
def baseUrl (url : String) : String := String.mk (beforeQuery url.data)

/-- The characters of JavaScript's `\s` class relevant to message text. -/
def isJsSpace (c : Char) : Bool :=
  c == ' ' || c == '\t' || c == '\n' || c == '\r' || c == '\x0b' || c == '\x0c'

/-- Longest non-whitespace run at the head (the `[^\s]+` part). -/
def grabNonSpace : List Char → List Char × List Char
  | [] => ([], [])
  | c :: cs =>
    if isJsSpace c then ([], c :: cs)
    else
      let r := grabNonSpace cs
      (c :: r.1, r.2)

/-- Literal match of `https://` or `http://` at the head (the regex has no
case-insensitive flag here). -/
def matchScheme : List Char → Option (List Char × List Char)
  | 'h' :: 't' :: 't' :: 'p' :: 's' :: ':' :: '/' :: '/' :: rest =>
    some ("https://".data, rest)
  | 'h' :: 't' :: 't' :: 'p' :: ':' :: '/' :: '/' :: rest =>
    some ("http://".data, rest)
  | _ => none

/-- The scan of `content.match(/(https?:\/\/[^\s]+)/g)`: left-to-right,
non-overlapping, greedy; a scheme with nothing after it is not a match.
`fuel` bounds the number of scan steps (each consumes at least one
character), so `fuel = length` never runs out. -/
def extractUrlsAux : Nat → List Char → List String
  | 0, _ => []
  | _ + 1, [] => []
  | fuel + 1, c :: cs =>
    match matchScheme (c :: cs) with
    | some (scheme, afterScheme) =>
      match grabNonSpace afterScheme with
      | ([], _) => extractUrlsAux fuel cs
      | (tok, rest) => String.mk (scheme ++ tok) :: extractUrlsAux fuel rest
    | none => extractUrlsAux fuel cs

def extractUrls (s : String) : List String := extractUrlsAux s.data.length s.data

/-- The embed-derived candidate link (lines 360-373): prefer the image url,
then the video url, then a generic link url unless the embed type is
`image` or `gifv`; at most one link per embed; the display name defaults
per kind when the embed has no (truthy) title. -/
def embedCandidate (embed : MsgEmbed) : Option (String × String) :=
  match jsTruthyStr embed.image with
  | some u => some (u, strOrElse embed.title "Embedded Image")
  | none =>
    match jsTruthyStr embed.video with
    | some u => some (u, strOrElse embed.title "Embedded Video")
    | none =>
      match jsTruthyStr embed.url with
      | some u =>
        if embed.type ≠ "image" ∧ embed.type ≠ "gifv" then
          some (u, strOrElse embed.title "Embedded Link")
        else none
      | none => none

/-- An attachment candidate.  `named = true` for the Discord-attachment and
embed branches (which consult and record the display name), `named = false`
for the bare-URL branch (fixed name `'Shared Link'`, never consulted or
recorded). -/
structure Candidate where
  url : String
  name : String
  named : Bool
deriving DecidableEq, Repr

/-- The candidates of one message, in the order the three loops visit
them. -/
def messageCandidates (m : Msg) : List Candidate :=
  m.attachments.map (fun a => ⟨a.url, a.name, true⟩) ++
  (m.embeds.filterMap fun e =>
    (embedCandidate e).map fun p => (⟨p.1, p.2, true⟩ : Candidate)) ++
  (extractUrls m.content).map (fun u => ⟨u, "Shared Link", false⟩)

/-- One issued `add attachment` call of a reconciliation run. -/
structure CallRec where
  url : String
  name : String
  named : Bool
  ok : Bool
deriving DecidableEq, Repr

structure RecState where
  remote : List Attachment
  existingUrls : List String
  existingNames : List String
  processedUrls : List String
  processedNames : List String
  callIdx : Nat
  calls : List CallRec
deriving DecidableEq, Repr

/-- The guarded `addAttachment` call for one non-duplicate candidate:
issue the call and, only when it succeeds, record the url and base-url
(and, for named candidates, the display name) in both the `processed*` and
`existing*` sets, the new attachment landing on the remote card; a failed
call (the `try/catch`) records nothing. -/
def issueCall (oracle : Nat → Bool) (s : RecState) (cand : Candidate) : RecState :=
  let b := baseUrl cand.url
  let ok := oracle s.callIdx
  let s1 := { s with
    callIdx := s.callIdx + 1,
    calls := s.calls ++ [⟨cand.url, cand.name, cand.named, ok⟩] }
  if ok then
    if cand.named then
      { s1 with
        remote := s1.remote ++ [⟨cand.url, cand.name, none⟩],
        processedUrls := jsSetAdd (jsSetAdd s1.processedUrls cand.url) b,
        processedNames := jsSetAdd s1.processedNames cand.name,
        existingUrls := jsSetAdd (jsSetAdd s1.existingUrls cand.url) b,
        existingNames := jsSetAdd s1.existingNames cand.name }
    else
      { s1 with
        remote := s1.remote ++ [⟨cand.url, cand.name, none⟩],
        processedUrls := jsSetAdd (jsSetAdd s1.processedUrls cand.url) b,
        existingUrls := jsSetAdd (jsSetAdd s1.existingUrls cand.url) b }
  else s1

/-- One candidate through the duplicate checks, exactly as each of the
three loop bodies does it: skip when the url or base-url is already seen
(or, for the named Discord-attachment/embed candidates, when the display
name is already seen); otherwise issue the guarded call. -/
def processCandidate (oracle : Nat → Bool) (s : RecState) (cand : Candidate) :
    RecState :=
  let b := baseUrl cand.url
  let isDuplicateUrl := s.existingUrls.contains cand.url || s.existingUrls.contains b ||
    s.processedUrls.contains cand.url || s.processedUrls.contains b
  let isDuplicateName := s.existingNames.contains cand.name ||
    s.processedNames.contains cand.name
  if cand.named then
    if isDuplicateUrl || isDuplicateName then s else issueCall oracle s cand
  else
    if isDuplicateUrl then s else issueCall oracle s cand

/-- The seeding of `existingUrls` from the card's fetched attachment list:
`att.url`, then its base-url, per attachment. -/
def seedUrls (remote : List Attachment) : List String :=
  remote.foldl (fun acc a => jsSetAdd (jsSetAdd acc a.url) (baseUrl a.url)) []

def seedNames (remote : List Attachment) : List String :=
  remote.foldl (fun acc a => jsSetAdd acc a.name) []

/-- One reconciliation pass over the full message list: fetch the card's
attachments fresh, seed the seen-sets, then walk every candidate of every
message in order. -/
def runPass (oracle : Nat → Bool) (msgs : List Msg) (remote : List Attachment)
    (callIdx : Nat) : RecState :=
  let s0 : RecState :=
    { remote := remote, existingUrls := seedUrls remote,
      existingNames := seedNames remote, processedUrls := [],
      processedNames := [], callIdx := callIdx, calls := [] }
  ((msgs.map messageCandidates).flatten).foldl (processCandidate oracle) s0

structure MultiPass where
  remote : List Attachment
  callIdx : Nat
  calls : List CallRec
deriving DecidableEq, Repr

/-- A sequence of reconciliation passes over a fixed message set, the
card's remote attachment list carried between passes (reflecting prior
successful adds) and the ghost call log accumulated. -/
def runPasses (oracle : Nat → Bool) (msgs : List Msg) :
    Nat → List Attachment → Nat → List CallRec → MultiPass
  | 0, remote, idx, calls => ⟨remote, idx, calls⟩
  | n + 1, remote, idx, calls =>
    let s := runPass oracle msgs remote idx
    runPasses oracle msgs n s.remote s.callIdx (calls ++ s.calls)

/-- The reconciliation invariant, relative to the call log `G` of earlier
passes: the base-url of every successful call is in the seen-url set and
its attachment is on the remote card; successful calls never repeat a
base-url; and within the running pass, named successful calls never repeat
a display name (their names are all in the seen-name set). -/
structure PassInv (G : List CallRec) (s : RecState) : Prop where
  urlCover : ∀ c ∈ G ++ s.calls, c.ok = true → baseUrl c.url ∈ s.existingUrls
  remoteCover : ∀ c ∈ G ++ s.calls, c.ok = true → ∃ a ∈ s.remote, a.url = c.url
  basesOnce : ∀ b, ((G ++ s.calls).filter
    (fun c => c.ok && (baseUrl c.url == b))).length ≤ 1
  namesOnce : ∀ nm, (s.calls.filter
    (fun c => c.named && c.ok && (c.name == nm))).length ≤ 1
  namedCover : ∀ c ∈ s.calls, c.named = true → c.ok = true →
    c.name ∈ s.existingNames

theorem filter_nil_of_forall {l : List CallRec} {p : CallRec → Bool}
    (h : ∀ c ∈ l, p c = false) : l.filter p = [] :=
  List.filter_eq_nil_iff.mpr (fun c hc => by rw [h c hc]; exact Bool.false_ne_true)


theorem callFail_inv (oracle : Nat → Bool) (G : List CallRec) (s : RecState)
    (cand : Candidate) (h : PassInv G s) (hok : ¬ oracle s.callIdx = true) :
    PassInv G { s with
      callIdx := s.callIdx + 1,
      calls := s.calls ++ [⟨cand.url, cand.name, cand.named, oracle s.callIdx⟩] } := by
  refine ⟨?_, ?_, ?_, ?_, ?_⟩
  · intro c hc hcok
    rw [← List.append_assoc] at hc
    rcases List.mem_append.mp hc with hold | hnew
    · exact h.urlCover c hold hcok
    · have hce : c = ⟨cand.url, cand.name, cand.named, oracle s.callIdx⟩ := by
        simpa using hnew
      subst hce
      simp only at hcok
      exact absurd hcok hok
  · intro c hc hcok
    rw [← List.append_assoc] at hc
    rcases List.mem_append.mp hc with hold | hnew
    · exact h.remoteCover c hold hcok
    · have hce : c = ⟨cand.url, cand.name, cand.named, oracle s.callIdx⟩ := by
        simpa using hnew
      subst hce
      simp only at hcok
      exact absurd hcok hok
  · intro b
    rw [← List.append_assoc, List.filter_append, List.length_append]
    have hnil : List.filter (fun c => c.ok && (baseUrl c.url == b))
        [(⟨cand.url, cand.name, cand.named, oracle s.callIdx⟩ : CallRec)] = [] := by
      apply filter_nil_of_forall
      intro c hc
      have hce : c = ⟨cand.url, cand.name, cand.named, oracle s.callIdx⟩ := by
        simpa using hc
      subst hce
      simp only
      rw [Bool.eq_false_iff.mpr hok]
      simp
    rw [hnil]
    simpa using h.basesOnce b
  · intro nm
    rw [List.filter_append, List.length_append]
    have hnil : List.filter (fun c => c.named && c.ok && (c.name == nm))
        [(⟨cand.url, cand.name, cand.named, oracle s.callIdx⟩ : CallRec)] = [] := by
      apply filter_nil_of_forall
      intro c hc
      have hce : c = ⟨cand.url, cand.name, cand.named, oracle s.callIdx⟩ := by
        simpa using hc
      subst hce
      simp only
      rw [Bool.eq_false_iff.mpr hok]
      simp
    rw [hnil]
    simpa using h.namesOnce nm
  · intro c hc hcn hcok
    rcases List.mem_append.mp hc with hold | hnew
    · exact h.namedCover c hold hcn hcok
    · have hce : c = ⟨cand.url, cand.name, cand.named, oracle s.callIdx⟩ := by
        simpa using hnew
      subst hce
      simp only at hcok
      exact absurd hcok hok

theorem issueCall_inv (oracle : Nat → Bool) (G : List CallRec) (s : RecState)
    (cand : Candidate) (h : PassInv G s)
    (hbne : baseUrl cand.url ∉ s.existingUrls)
    (hnamene : cand.named = true → cand.name ∉ s.existingNames) :
    PassInv G (issueCall oracle s cand) := by
  have oldBasesNil : ∀ b, (baseUrl cand.url == b) = true →
      (G ++ s.calls).filter (fun c => c.ok && (baseUrl c.url == b)) = [] := by
    intro b hb
    apply filter_nil_of_forall
    intro c hc
    by_cases hok : c.ok = true
    · by_cases hbase : (baseUrl c.url == b) = true
      · exfalso
        apply hbne
        have hb' : baseUrl cand.url = b := by simpa using hb
        have hbase' : baseUrl c.url = b := by simpa using hbase
        have := h.urlCover c hc hok
        rwa [hbase', ← hb'] at this
      · simp [hbase]
    · simp [hok]
  have oldNamesNil : cand.named = true → ∀ nm, (cand.name == nm) = true →
      s.calls.filter (fun c => c.named && c.ok && (c.name == nm)) = [] := by
    intro hn nm hnm
    apply filter_nil_of_forall
    intro c hc
    by_cases hcn : c.named = true
    · by_cases hok : c.ok = true
      · by_cases hname : (c.name == nm) = true
        · exfalso
          apply hnamene hn
          have hnm' : cand.name = nm := by simpa using hnm
          have hname' : c.name = nm := by simpa using hname
          have := h.namedCover c hc hcn hok
          rwa [hname', ← hnm'] at this
        · simp [hname]
      · simp [hok]
    · simp [hcn]
  unfold issueCall
  split
  · next hnamed =>
    dsimp only
    split
    · next hok =>
      refine ⟨?_, ?_, ?_, ?_, ?_⟩
      · intro c hc hcok
        rw [← List.append_assoc] at hc
        rcases List.mem_append.mp hc with hold | hnew
        · exact mem_jsSetAdd_of_mem _ (mem_jsSetAdd_of_mem _ (h.urlCover c hold hcok))
        · have hce : c = ⟨cand.url, cand.name, cand.named, oracle s.callIdx⟩ := by
            simpa using hnew
          subst hce
          exact mem_jsSetAdd_self _ _
      · intro c hc hcok
        rw [← List.append_assoc] at hc
        rcases List.mem_append.mp hc with hold | hnew
        · obtain ⟨a, ha, hau⟩ := h.remoteCover c hold hcok
          exact ⟨a, List.mem_append.mpr (Or.inl ha), hau⟩
        · have hce : c = ⟨cand.url, cand.name, cand.named, oracle s.callIdx⟩ := by
            simpa using hnew
          subst hce
          exact ⟨⟨cand.url, cand.name, none⟩, List.mem_append.mpr (Or.inr (by simp)), rfl⟩
      · intro b
        rw [← List.append_assoc, List.filter_append, List.length_append]
        by_cases hb : (baseUrl cand.url == b) = true
        · rw [oldBasesNil b hb]
          simp [hok, hb]
        · have hnil : List.filter (fun c => c.ok && (baseUrl c.url == b))
              [(⟨cand.url, cand.name, cand.named, oracle s.callIdx⟩ : CallRec)] = [] := by
            apply filter_nil_of_forall
            intro c hc
            have hce : c = ⟨cand.url, cand.name, cand.named, oracle s.callIdx⟩ := by
              simpa using hc
            subst hce
            simp [hb]
          rw [hnil]
          simpa using h.basesOnce b
      · intro nm
        rw [List.filter_append, List.length_append]
        by_cases hnm : (cand.name == nm) = true
        · rw [oldNamesNil hnamed nm hnm]
          simp [hok, hnm, hnamed]
        · have hnil : List.filter (fun c => c.named && c.ok && (c.name == nm))
              [(⟨cand.url, cand.name, cand.named, oracle s.callIdx⟩ : CallRec)] = [] := by
            apply filter_nil_of_forall
            intro c hc
            have hce : c = ⟨cand.url, cand.name, cand.named, oracle s.callIdx⟩ := by
              simpa using hc
            subst hce
            simp [hnm]
          rw [hnil]
          simpa using h.namesOnce nm
      · intro c hc hcn hcok
        rcases List.mem_append.mp hc with hold | hnew
        · exact mem_jsSetAdd_of_mem _ (h.namedCover c hold hcn hcok)
        · have hce : c = ⟨cand.url, cand.name, cand.named, oracle s.callIdx⟩ := by
            simpa using hnew
          subst hce
          exact mem_jsSetAdd_self _ _
    · next hok =>
      exact callFail_inv oracle G s cand h hok
  · next hnamed =>
    have hn : cand.named = false := by
      cases hcn : cand.named
      · rfl
      · exact absurd hcn hnamed
    dsimp only
    split
    · next hok =>
      refine ⟨?_, ?_, ?_, ?_, ?_⟩
      · intro c hc hcok
        rw [← List.append_assoc] at hc
        rcases List.mem_append.mp hc with hold | hnew
        · exact mem_jsSetAdd_of_mem _ (mem_jsSetAdd_of_mem _ (h.urlCover c hold hcok))
        · have hce : c = ⟨cand.url, cand.name, cand.named, oracle s.callIdx⟩ := by
            simpa using hnew
          subst hce
          exact mem_jsSetAdd_self _ _
      · intro c hc hcok
        rw [← List.append_assoc] at hc
        rcases List.mem_append.mp hc with hold | hnew
        · obtain ⟨a, ha, hau⟩ := h.remoteCover c hold hcok
          exact ⟨a, List.mem_append.mpr (Or.inl ha), hau⟩
        · have hce : c = ⟨cand.url, cand.name, cand.named, oracle s.callIdx⟩ := by
            simpa using hnew
          subst hce
          exact ⟨⟨cand.url, cand.name, none⟩, List.mem_append.mpr (Or.inr (by simp)), rfl⟩
      · intro b
        rw [← List.append_assoc, List.filter_append, List.length_append]
        by_cases hb : (baseUrl cand.url == b) = true
        · rw [oldBasesNil b hb]
          simp [hok, hb]
        · have hnil : List.filter (fun c => c.ok && (baseUrl c.url == b))
              [(⟨cand.url, cand.name, cand.named, oracle s.callIdx⟩ : CallRec)] = [] := by
            apply filter_nil_of_forall
            intro c hc
            have hce : c = ⟨cand.url, cand.name, cand.named, oracle s.callIdx⟩ := by
              simpa using hc
            subst hce
            simp [hb]
          rw [hnil]
          simpa using h.basesOnce b
      · intro nm
        rw [List.filter_append, List.length_append]
        have hnil : List.filter (fun c => c.named && c.ok && (c.name == nm))
            [(⟨cand.url, cand.name, cand.named, oracle s.callIdx⟩ : CallRec)] = [] := by
          apply filter_nil_of_forall
          intro c hc
          have hce : c = ⟨cand.url, cand.name, cand.named, oracle s.callIdx⟩ := by
            simpa using hc
          subst hce
          simp [hn]
        rw [hnil]
        simpa using h.namesOnce nm
      · intro c hc hcn hcok
        rcases List.mem_append.mp hc with hold | hnew
        · exact h.namedCover c hold hcn hcok
        · have hce : c = ⟨cand.url, cand.name, cand.named, oracle s.callIdx⟩ := by
            simpa using hnew
          subst hce
          rw [hn] at hcn
          cases hcn
    · next hok =>
      exact callFail_inv oracle G s cand h hok

theorem processCandidate_inv (oracle : Nat → Bool) (G : List CallRec)
    (s : RecState) (cand : Candidate) (h : PassInv G s) :
    PassInv G (processCandidate oracle s cand) := by
  unfold processCandidate
  split
  · next hnamed =>
    dsimp only
    split
    · exact h
    · next hdup =>
      have hfacts := Bool.or_eq_false_iff.mp (Bool.eq_false_iff.mpr hdup)
      have hurl := hfacts.1
      have hname := hfacts.2
      apply issueCall_inv oracle G s cand h
      · intro hmem
        have : s.existingUrls.contains (baseUrl cand.url) = true := by simpa using hmem
        rw [Bool.or_eq_false_iff, Bool.or_eq_false_iff, Bool.or_eq_false_iff] at hurl
        rw [hurl.1.1.2] at this
        cases this
      · intro _ hmem
        have : s.existingNames.contains cand.name = true := by simpa using hmem
        rw [Bool.or_eq_false_iff] at hname
        rw [hname.1] at this
        cases this
  · next hnamed =>
    dsimp only
    split
    · exact h
    · next hdup =>
      have hurl := Bool.eq_false_iff.mpr hdup
      apply issueCall_inv oracle G s cand h
      · intro hmem
        have : s.existingUrls.contains (baseUrl cand.url) = true := by simpa using hmem
        rw [Bool.or_eq_false_iff, Bool.or_eq_false_iff, Bool.or_eq_false_iff] at hurl
        rw [hurl.1.1.2] at this
        cases this
      · intro hn _
        cases hnamed hn

theorem foldl_processCandidate_inv (oracle : Nat → Bool) (G : List CallRec)
    (cands : List Candidate) :
    ∀ s, PassInv G s → PassInv G (cands.foldl (processCandidate oracle) s) := by
  induction cands with
  | nil => intro s h; exact h
  | cons c t ih => intro s h; exact ih _ (processCandidate_inv oracle G s c h)

theorem mem_foldl_seedUrls (l : List Attachment) :
    ∀ acc x, x ∈ acc →
      x ∈ l.foldl (fun acc a => jsSetAdd (jsSetAdd acc a.url) (baseUrl a.url)) acc := by
  induction l with
  | nil => intro acc x hx; exact hx
  | cons a t ih =>
    intro acc x hx
    exact ih _ x (mem_jsSetAdd_of_mem _ (mem_jsSetAdd_of_mem _ hx))

theorem baseUrl_mem_seedUrls {remote : List Attachment} {a : Attachment}
    (ha : a ∈ remote) : baseUrl a.url ∈ seedUrls remote := by
  unfold seedUrls
  generalize hacc : ([] : List String) = acc
  clear hacc
  induction remote generalizing acc with
  | nil => cases ha
  | cons a₀ t ih =>
    rcases List.mem_cons.mp ha with rfl | ha'
    · exact mem_foldl_seedUrls t _ _ (mem_jsSetAdd_self _ _)
    · exact ih ha' _

/-- The cross-pass invariant: the attachment of every successful call is on
the remote card, and successful calls never repeat a base-url. -/
structure RemInv (remote : List Attachment) (calls : List CallRec) : Prop where
  remoteCover : ∀ c ∈ calls, c.ok = true → ∃ a ∈ remote, a.url = c.url
  basesOnce : ∀ b, (calls.filter (fun c => c.ok && (baseUrl c.url == b))).length ≤ 1

theorem runPass_inv (oracle : Nat → Bool) (msgs : List Msg)
    (remote : List Attachment) (idx : Nat) (G : List CallRec)
    (h : RemInv remote G) : PassInv G (runPass oracle msgs remote idx) := by
  unfold runPass
  apply foldl_processCandidate_inv
  refine ⟨?_, ?_, ?_, ?_, ?_⟩
  · intro c hc hok
    rw [List.append_nil] at hc
    obtain ⟨a, ha, hau⟩ := h.remoteCover c hc hok
    rw [← hau]
    exact baseUrl_mem_seedUrls ha
  · intro c hc hok
    rw [List.append_nil] at hc
    exact h.remoteCover c hc hok
  · intro b
    simpa using h.basesOnce b
  · intro nm
    simp
  · intro c hc
    exact absurd hc (List.not_mem_nil c)

theorem passInv_to_remInv (G : List CallRec) (s : RecState) (h : PassInv G s) :
    RemInv s.remote (G ++ s.calls) :=
  ⟨h.remoteCover, h.basesOnce⟩

theorem runPasses_inv (oracle : Nat → Bool) (msgs : List Msg) :
    ∀ (n : Nat) (remote : List Attachment) (idx : Nat) (calls : List CallRec),
      RemInv remote calls →
      RemInv (runPasses oracle msgs n remote idx calls).remote
        (runPasses oracle msgs n remote idx calls).calls := by
  intro n
  induction n with
  | zero => intro remote idx calls h; exact h
  | succ n ih =>
    intro remote idx calls h
    exact ih _ _ _
      (passInv_to_remInv calls (runPass oracle msgs remote idx)
        (runPass_inv oracle msgs remote idx calls h))

/-! ## Claims C6 and C7: attachment deduplication -/

def c6Oracle : Nat → Bool := fun _ => true

def c6Msg : Msg :=
  { id := "m1", author := "u", authorBot := false,
    content := "http://x http://y", attachments := [], embeds := [],
    createdTimestamp := 0 }

def c6Remote : List Attachment :=
  [{ url := "http://z", name := "Shared Link", contentType := none }]

/-- C6 counterexample: the card already carries an attachment with display
name `Shared Link` (so that name is in the seen set from the start), and
one message body holds two bare URLs.  The bare-URL branch consults only
the url forms: both candidates are added, both under the display name
`Shared Link` — a candidate whose display name was already seen is NOT
skipped, and the same display name is added twice within one pass. -/
theorem bareUrl_ignores_name_seen :
    "Shared Link" ∈ seedNames c6Remote ∧
    (runPass c6Oracle [c6Msg] c6Remote 0).calls =
      [⟨"http://x", "Shared Link", false, true⟩,
       ⟨"http://y", "Shared Link", false, true⟩] := by
  decide

/-- C6 amended.  For Discord-attachment and embed candidates (the `named`
ones) the reconciler skips a candidate when its normalized base-url OR its
display name is already in the seen set, and consequently no display name
is ever successfully added twice by those two branches within one pass;
bare URLs scanned from message body text, however, are deduplicated by url
forms only (their fixed display name `Shared Link` is neither consulted nor
recorded), so that name can be added repeatedly — see the
counterexample. -/
theorem namedAdds_nameOnce (oracle : Nat → Bool) (msgs : List Msg)
    (remote : List Attachment) (idx : Nat) (nm : String) :
    ((runPass oracle msgs remote idx).calls.filter
      (fun c => c.named && c.ok && (c.name == nm))).length ≤ 1 :=
  (runPass_inv oracle msgs remote idx []
    ⟨fun c hc => absurd hc (List.not_mem_nil c), fun b => by simp⟩).namesOnce nm

def c7Oracle : Nat → Bool := fun i => decide (0 < i)

def c7Msg : Msg :=
  { id := "m1", author := "u", authorBot := false, content := "",
    attachments := [{ url := "http://x/f.png", name := "f.png", contentType := none }],
    embeds := [], createdTimestamp := 0 }

/-- C7 counterexample: the first add-attachment call for base-url
`http://x/f.png` fails (transient remote error, caught and logged), so
nothing is recorded; the next reconciliation pass over the same fixed
message set issues a second call for the same normalized base-url — two
calls in total across passes, not at most one.  (Only one of them
succeeds.) -/
theorem failedAdd_reissues_call :
    (((runPasses c7Oracle [c7Msg] 2 [] 0 []).calls).filter
      (fun c => baseUrl c.url == "http://x/f.png")).length = 2 ∧
    (((runPasses c7Oracle [c7Msg] 2 [] 0 []).calls).filter
      (fun c => c.ok && (baseUrl c.url == "http://x/f.png"))).length = 1 := by
  decide

/-- C7 amended.  For any sequence of reconciliation passes over a fixed
message set, with the card's remote attachment list reflecting prior
successful adds, the number of SUCCESSFUL add-attachment calls for any
given normalized base-url is at most one, in total across all passes; a
further call for a base-url can only be issued while every earlier call
for it has failed — see the counterexample for a failed call being
retried. -/
theorem addAttachment_base_successOnce (oracle : Nat → Bool) (msgs : List Msg)
    (n : Nat) (remote₀ : List Attachment) (idx : Nat) (b : String) :
    (((runPasses oracle msgs n remote₀ idx []).calls).filter
      (fun c => c.ok && (baseUrl c.url == b))).length ≤ 1 :=
  (runPasses_inv oracle msgs n remote₀ idx []
    ⟨fun c hc => absurd hc (List.not_mem_nil c), fun b => by simp⟩).basesOnce b

/-! ## The Content Aggregator
(`DiscordTrelloBot.updateCardWithAllMessages` description build,
`formatMessageForCard` and its helpers, src/index.js lines 251-303 and
446-680)

String-rendering builtins of the runtime are abstracted by fixed injective
functions of the timestamp (`localeDateTimeLong`/`localeDateTimeShort` for
the two `toLocaleString` option sets, `localeDay` for
`toLocaleDateString`, which renders exactly the calendar day and therefore
groups messages the way the source does). -/

def localeDateTimeLong (ms : Nat) : String := "datetime-long:" ++ toString ms

def localeDateTimeShort (ms : Nat) : String := "datetime-short:" ++ toString ms

def localeDay (ms : Nat) : String := "day:" ++ toString (ms / 86400000)

def lowerStr (s : String) : String := String.mk (s.data.map Char.toLower)

/-- Is `pat` a prefix here? -/
def isSubAt : List Char → List Char → Bool
  | [], _ => true
  | _ :: _, [] => false
  | p :: ps, c :: cs => p == c && isSubAt ps cs

/-- Does the text contain `pat` (JavaScript `includes` / unanchored regex
test)? -/
def containsSubAux (pat : List Char) : List Char → Bool
  | [] => isSubAt pat []
  | c :: cs => isSubAt pat (c :: cs) || containsSubAux pat cs

def strContains (s pat : String) : Bool := containsSubAux pat.data s.data

def strEndsWith (s suf : String) : Bool := isSubAt suf.data.reverse s.data.reverse

def strStartsWith (s pre : String) : Bool := isSubAt pre.data s.data

def dropLeadingSpace : List Char → List Char
  | [] => []
  | c :: cs => if isJsSpace c then dropLeadingSpace cs else c :: cs

/-- JavaScript `String.prototype.trim` (whitespace as in `isJsSpace`). -/
def jsTrim (s : String) : String :=
  String.mk (dropLeadingSpace (dropLeadingSpace s.data.reverse).reverse)

/-- Test of `\.(e₁|e₂|…)(\?|$)` on an already-lowercased string: some
`.ext` at the end, or some `.ext?` anywhere. -/
def extTest (t : String) (exts : List String) : Bool :=
  exts.any fun e =>
    strEndsWith t ("." ++ e) || strContains t ("." ++ e ++ "?")

/-- `tenorShareRegex = /^https?:\/\/(www\.)?tenor\.com\/view\/[^\s]+$/i`
applied to an already-lowercased string. -/
def tenorShareTest (t : String) : Bool :=
  let cs := t.data
  let afterScheme : Option (List Char) :=
    if isSubAt "https://".data cs then some (cs.drop 8)
    else if isSubAt "http://".data cs then some (cs.drop 7)
    else none
  match afterScheme with
  | none => false
  | some r =>
    let r2 := if isSubAt "www.".data r then r.drop 4 else r
    if isSubAt "tenor.com/view/".data r2 then
      let rest := r2.drop 15
      !rest.isEmpty && rest.all (fun c => !isJsSpace c)
    else false

/-- `DiscordTrelloBot.isJustMediaUrl` (lines 556-570). -/
def isJustMediaUrl (content : String) : Bool :=
  let trimmed := jsTrim content
  if trimmed == "" then false
  else if extTest (lowerStr trimmed)
    ["gif", "png", "jpg", "jpeg", "webp", "mp4", "mov", "avi", "webm", "mkv",
     "mp3", "wav", "ogg", "flac", "m4a"] then true
  else if strContains (lowerStr trimmed) "cdn.discordapp.com" ||
    strContains (lowerStr trimmed) "media.discordapp.net" then true
  else tenorShareTest (lowerStr trimmed)

/-- `DiscordTrelloBot.getMediaTypeFromUrl` (lines 572-587). -/
def getMediaTypeFromUrl (url : String) : String :=
  let lowerUrl := lowerStr url
  if strContains lowerUrl ".gif" || strContains lowerUrl "gif" then "a GIF"
  else if strContains lowerUrl "tenor.com/view/" then "a GIF"
  else if extTest lowerUrl ["png", "jpg", "jpeg", "webp"] then "an Image"
  else if extTest lowerUrl ["mp4", "mov", "avi", "webm", "mkv"] then "a Video"
  else if extTest lowerUrl ["mp3", "wav", "ogg", "flac", "m4a"] then "an Audio File"
  else "a File"

/-- `attachment.name.split('.').pop()?.toLowerCase()`. -/
def extOf (name : String) : String :=
  lowerStr (String.mk ((name.data.reverse.takeWhile (fun c => c ≠ '.')).reverse))

def strJoin (sep : String) : List String → String
  | [] => ""
  | [x] => x
  | x :: rest => x ++ sep ++ strJoin sep rest

/-- `DiscordTrelloBot.categorizeAttachments` (lines 589-628). -/
def categorizeAttachments (attachments : List Attachment) : String :=
  let counts := attachments.foldl (fun (t : Nat × Nat × Nat × Nat × Nat) a =>
    let ext := extOf a.name
    let contentType := (a.contentType.map lowerStr).getD ""
    let (gifs, images, videos, audio, files) := t
    if ext == "gif" || strContains contentType "gif" then
      (gifs + 1, images, videos, audio, files)
    else if ["png", "jpg", "jpeg", "webp", "bmp"].contains ext ||
        strStartsWith contentType "image/" then
      (gifs, images + 1, videos, audio, files)
    else if ["mp4", "mov", "avi", "webm", "mkv"].contains ext ||
        strStartsWith contentType "video/" then
      (gifs, images, videos + 1, audio, files)
    else if ["mp3", "wav", "ogg", "flac", "m4a"].contains ext ||
        strStartsWith contentType "audio/" then
      (gifs, images, videos, audio + 1, files)
    else (gifs, images, videos, audio, files + 1)) (0, 0, 0, 0, 0)
  let (gifs, images, videos, audio, files) := counts
  let parts : List String :=
    (if gifs > 0 then [if gifs == 1 then "a GIF" else toString gifs ++ " GIFs"] else []) ++
    (if images > 0 then [if images == 1 then "an Image" else toString images ++ " Images"] else []) ++
    (if videos > 0 then [if videos == 1 then "a Video" else toString videos ++ " Videos"] else []) ++
    (if audio > 0 then [if audio == 1 then "an Audio File" else toString audio ++ " Audio Files"] else []) ++
    (if files > 0 then [if files == 1 then "a File" else toString files ++ " Files"] else [])
  match parts with
  | [] => "an Attachment"
  | [p] => p
  | [p, q] => p ++ " and " ++ q
  | _ =>
    let lastPart := parts.reverse.headD ""
    let firsts := parts.reverse.tail.reverse
    strJoin ", " firsts ++ ", and " ++ lastPart

/-- `DiscordTrelloBot.getEmbedType` (lines 630-638).  `embed.image` /
`embed.video` truthiness is presence of the nested object (modelled by the
`Option` on its url); `embed.url` truthiness requires a nonempty string. -/
def getEmbedType (embed : MsgEmbed) : String :=
  if embed.type == "image" then "an Image"
  else if embed.type == "gifv" then "a GIF"
  else if embed.type == "video" then "a Video"
  else if embed.type == "rich" && embed.image.isSome then "an Image"
  else if embed.type == "rich" && embed.video.isSome then "a Video"
  else if (jsTruthyStr embed.url).isSome then "a Link"
  else "an Embed"

def backtickChar : Char := "`".data.headD ' '

/-- The one non-identity code-block substitution of `formatDiscordMarkdown`:
every run of six literal backticks is wrapped in newlines
(`.replace(/``````/g, …)`, non-overlapping, left to right). -/
def sixBackticksAux : Nat → List Char → List Char
  | 0, cs => cs
  | _ + 1, [] => []
  | fuel + 1, c :: cs =>
    if (c :: cs).take 6 == List.replicate 6 backtickChar then
      ('\n' :: List.replicate 6 backtickChar) ++
        ('\n' :: sixBackticksAux fuel ((c :: cs).drop 6))
    else c :: sixBackticksAux fuel cs

/-- The close of a spoiler: the nearest following `||`, with the capture
(`(.*?)`, dot does not match a newline) returned alongside the
remainder. -/
def findSpoilerEnd : Nat → List Char → Option (List Char × List Char)
  | 0, _ => none
  | _ + 1, [] => none
  | _ + 1, '|' :: '|' :: rest => some ([], rest)
  | fuel + 1, c :: cs =>
    if c = '\n' then none
    else match findSpoilerEnd fuel cs with
      | some (cap, rest) => some (c :: cap, rest)
      | none => none

/-- The spoiler substitution `.replace(/\|\|(.*?)\|\|/g, '[SPOILER: $1]')`.
An unclosed `||` is not a match; the scan advances one character. -/
def spoilersAux : Nat → List Char → List Char
  | 0, cs => cs
  | _ + 1, [] => []
  | fuel + 1, '|' :: '|' :: rest =>
    match findSpoilerEnd rest.length rest with
    | some (cap, rest2) =>
      ("[SPOILER: ".data ++ cap ++ [']']) ++ spoilersAux fuel rest2
    | none => '|' :: spoilersAux fuel ('|' :: rest)
  | fuel + 1, c :: cs => c :: spoilersAux fuel cs

/-- `DiscordTrelloBot.formatDiscordMarkdown` (lines 640-650).  Seven of the
nine substitutions replace each match with itself and are omitted as
identities; the six-backtick run wrapping and the spoiler rewriting are the
two substitutions that change the string, applied in source order. -/
def formatDiscordMarkdown (content : String) : String :=
  let afterCode := sixBackticksAux content.data.length content.data
  String.mk (spoilersAux afterCode.length afterCode)

/-- `DiscordTrelloBot.processEmbeds` with `showEmbeds = true`
(lines 652-668): one link line per embed carrying a truthy url. -/
def processEmbeds (embeds : List MsgEmbed) : String :=
  embeds.foldl (fun acc e =>
    match jsTruthyStr e.url with
    | some u => acc ++ "🔗 " ++ u ++ "\n"
    | none => acc) ""

/-- `DiscordTrelloBot.processAttachments` with `showAttachments = true`
(lines 670-680). -/
def processAttachments (attachments : List Attachment) : String :=
  if attachments.isEmpty then ""
  else attachments.foldl (fun acc a => acc ++ "🔗 " ++ a.url ++ "\n") ""

/-- `DiscordTrelloBot.formatMessageForCard` (lines 486-554). -/
def formatMessageForCard (message : Msg) (isOriginalPost : Bool) : String :=
  let timestamp := localeDateTimeShort message.createdTimestamp
  let author := message.author
  let content := message.content
  let authorMark := if isOriginalPost then "👑 **THREAD CREATOR**" else "💭"
  let formatted := "\n" ++ authorMark ++ " **" ++ author ++ "** • *" ++ timestamp ++ "*\n"
  let isJustUrl := isJustMediaUrl content
  let hasTextContent := (jsTrim content != "") && !isJustUrl
  let hasAttachments := !message.attachments.isEmpty
  let hasEmbeds := !message.embeds.isEmpty
  if (!hasTextContent && (hasAttachments || hasEmbeds)) || isJustUrl then
    let formatted :=
      if isJustUrl then
        formatted ++ "*" ++ author ++ " only attached " ++
          getMediaTypeFromUrl (jsTrim content) ++ "*\n" ++
          "🔗 " ++ jsTrim content ++ "\n"
      else if hasAttachments then
        formatted ++ "*" ++ author ++ " only attached " ++
          categorizeAttachments message.attachments ++ "*\n" ++
          (match message.attachments with
           | a :: _ => "🔗 " ++ a.url ++ "\n"
           | [] => "")
      else
        match message.embeds with
        | e :: _ =>
          formatted ++ "*" ++ author ++ " only attached " ++ getEmbedType e ++ "*\n" ++
            (match jsTruthyStr e.url with
             | some u => "🔗 " ++ u ++ "\n"
             | none => "")
        | [] => formatted
    formatted ++ "\n---\n"
  else
    let formatted :=
      if hasTextContent then
        let formatted := formatted ++
          (if isOriginalPost then "**📝 ORIGINAL THREAD CONTENT:**\n" else "") ++
          formatDiscordMarkdown content ++ "\n"
        let formatted :=
          if !message.embeds.isEmpty then
            let embedInfo := processEmbeds message.embeds
            if jsTrim embedInfo != "" then formatted ++ embedInfo else formatted
          else formatted
        if !message.attachments.isEmpty then
          let attachmentInfo := processAttachments message.attachments
          if attachmentInfo != "" then formatted ++ attachmentInfo else formatted
        else formatted
      else formatted
    formatted ++ "\n---\n"

/-- `DiscordTrelloBot.groupMessagesByDate` (lines 446-460): a `Map` from
rendered calendar date to the messages of that day, date keys in order of
first occurrence, messages appended in order. -/
def groupMessagesByDate (messages : List Msg) : List (String × List Msg) :=
  messages.foldl (fun grouped message =>
    let date := localeDay message.createdTimestamp
    if jsMapHas grouped date then
      grouped.map (fun p => if p.1 == date then (p.1, p.2 ++ [message]) else p)
    else grouped ++ [(date, [message])]) []

/-- The thread metadata the aggregator reads. -/
structure ThreadMeta where
  id : String
  name : String
  createdTimestamp : Nat
deriving DecidableEq, Repr

/-- `DiscordTrelloBot.fetchAllThreadMessages` (lines 462-483) on the full
oldest-first message list of the thread: bot-authored messages are
excluded while collecting, and the result is oldest first. -/
def fetchAllThreadMessages (msgs : List Msg) : List Msg :=
  msgs.filter (fun m => !m.authorBot)

/-- JavaScript `[...new Set(xs)]`: deduplicate keeping first occurrences. -/
def dedupKeepFirst (l : List String) : List String :=
  l.foldl jsSetAdd []

/-- The description document built by `updateCardWithAllMessages`
(lines 251-301): header with thread metadata, participants, a delimited
original-post block, and the replies grouped by calendar date. -/
def buildDescription (thread : ThreadMeta) (messages : List Msg) : String :=
  let threadCreated := localeDateTimeLong thread.createdTimestamp
  let participants := dedupKeepFirst (messages.map (·.author))
  let d := "# 💬 " ++ thread.name ++ "\n\n"
  let d := d ++ "**📍 Thread Details**\n"
  let d := d ++ "• **ID:** `" ++ thread.id ++ "`\n"
  let d := d ++ "• **Created:** " ++ threadCreated ++ "\n"
  let d := d ++ "• **Messages:** " ++ toString messages.length ++ "\n"
  let d := d ++ "• **Participants:** " ++ toString participants.length ++ "\n\n"
  let d := d ++ "**👥 Participants:** " ++ strJoin ", " participants ++ "\n\n"
  let d := d ++ "## 📋 Original Thread Post\n"
  let d := d ++ "**═══════════════════════════════════════**\n\n"
  let d := d ++ (match messages with
    | m :: _ => formatMessageForCard m true
    | [] => "")
  let d := d ++ "\n**═══════════════════════════════════════**\n"
  let d := d ++ "**⬆️ END OF ORIGINAL POST ⬆️**\n"
  let d := d ++ "**═══════════════════════════════════════**\n\n"
  let replies := messages.tail
  if !replies.isEmpty then
    let d := d ++ "## 💬 Thread Replies & Discussion\n"
    let d := d ++ "**🔽 NEW CONTENT STARTS HERE 🔽**\n\n"
    (groupMessagesByDate replies).foldl (fun d p =>
      p.2.foldl (fun d m => d ++ formatMessageForCard m false)
        (d ++ "### 📅 " ++ p.1 ++ "\n")) d
  else
    d ++ "## 💬 Thread Replies\n" ++
      "*No replies yet - this thread only contains the original post.*\n"

structure TrelloCard where
  id : String
  name : String
  desc : String
deriving DecidableEq, Repr

/-- The description phase of `updateCardWithAllMessages`: the card's
description is replaced wholesale by the freshly aggregated document
(`trello.card.update(cardId, { desc })`) — the old description is never
read. -/
def updateCardDesc (thread : ThreadMeta) (threadMsgs : List Msg)
    (card : TrelloCard) : TrelloCard :=
  { card with desc := buildDescription thread (fetchAllThreadMessages threadMsgs) }

/-! ## Claim C8: the Content Aggregator is deterministic and idempotent -/

/-- C8.  Running aggregation twice over the same thread metadata and the
same unchanged message list produces byte-identical description strings
(determinism of the pure aggregation pipeline), and re-applying the
description update to an already-updated card changes nothing — the
description replaces the card's old one wholesale and never depends on
it. -/
theorem contentAggregator_deterministic_idempotent (t t2 : ThreadMeta)
    (msgs msgs2 : List Msg) (card : TrelloCard)
    (ht : t = t2) (hm : msgs = msgs2) :
    buildDescription t (fetchAllThreadMessages msgs) =
      buildDescription t2 (fetchAllThreadMessages msgs2) ∧
    updateCardDesc t msgs (updateCardDesc t msgs card) = updateCardDesc t msgs card := by
  subst ht
  subst hm
  exact ⟨rfl, rfl⟩

def c8Thread : ThreadMeta := { id := "t1", name := "Bug 42", createdTimestamp := 1700000000000 }

def c8Msgs : List Msg :=
  [{ id := "m1", author := "ana", authorBot := false,
     content := "It ||crashes|| on startup", attachments := [], embeds := [],
     createdTimestamp := 1700000000000 },
   { id := "m2", author := "bob", authorBot := false,
     content := "https://cdn.example.com/clip.gif", attachments := [], embeds := [],
     createdTimestamp := 1700000100000 },
   { id := "m3", author := "engine", authorBot := true,
     content := "notification", attachments := [], embeds := [],
     createdTimestamp := 1700000200000 },
   { id := "m4", author := "ana", authorBot := false, content := "fixed!",
     attachments := [⟨"http://files/img.png", "img.png", some "image/png"⟩],
     embeds := [], createdTimestamp := 1700086400000 }]

def c8Card : TrelloCard :=
  { id := "card1", name := "[Discord] Bug 42 - by ana", desc := "*Loading thread content...*" }

set_option maxRecDepth 40000 in
/-- C8 witness: the claim instantiated on a concrete thread whose messages
exercise the text, spoiler, media-url-only, bot-filtered and attachment
branches; the aggregated description is also evaluated to a concrete
nonempty string. -/
theorem contentAggregator_deterministic_idempotent_witness :
    (c8Thread = c8Thread ∧ c8Msgs = c8Msgs ∧
      (buildDescription c8Thread (fetchAllThreadMessages c8Msgs)).length > 0) ∧
    (buildDescription c8Thread (fetchAllThreadMessages c8Msgs) =
      buildDescription c8Thread (fetchAllThreadMessages c8Msgs) ∧
    updateCardDesc c8Thread c8Msgs (updateCardDesc c8Thread c8Msgs c8Card) =
      updateCardDesc c8Thread c8Msgs c8Card) :=
  ⟨⟨rfl, rfl, by decide⟩,
    contentAggregator_deterministic_idempotent c8Thread c8Thread c8Msgs c8Msgs c8Card
      rfl rfl⟩

/-! ## The Sync Orchestrator
(`DiscordTrelloBot` thread handlers, src/index.js lines 88-167, 224-248
and 682-692)

Threads carry an id, a name and a creator username.  Board cards get fresh
numeric ids from a counter.  The two fallible Board System calls —
`trello.board.searchCards` inside `findExistingCard` and
`trello.card.create` inside `createTrelloCard` — are driven by a success
oracle indexed by a global call counter.  The model is single-threaded, so
the `processingThreads` busy-wait guard of `handleNewThread` never
observes a concurrent entry and is elided; `updateCardWithAllMessages`
neither reads nor writes the two maps and is elided from the map-level
model. -/

/-- `Map.get` on an association list, first entry wins (generic key). -/
def mGet [DecidableEq κ] : List (κ × α) → κ → Option α
  | [], _ => none
  | (k', v) :: rest, k => if k' = k then some v else mGet rest k

/-- `Map.set` on an association list: overwrite in place, else append. -/
def mSet [DecidableEq κ] : List (κ × α) → κ → α → List (κ × α)
  | [], k, v => [(k, v)]
  | (k', v') :: rest, k, v =>
    if k' = k then (k', v) :: rest else (k', v') :: mSet rest k v

structure ThreadInfo where
  id : String
  name : String
  creator : String
deriving DecidableEq, Repr

/-- The card title `[Discord] ${threadName} - by ${threadCreator}` used both
by `createTrelloCard` and by the `findExistingCard` search. -/
def cardKey (t : ThreadInfo) : String :=
  "[Discord] " ++ t.name ++ " - by " ++ t.creator

structure BoardCard where
  id : Nat
  name : String
deriving DecidableEq, Repr

structure OrchOracle where
  searchOk : Nat → Bool
  createOk : Nat → Bool

structure OrchState where
  threadCardMap : List (String × Nat)
  cardThreadMap : List (Nat × String)
  board : List BoardCard
  nextCard : Nat
  callIdx : Nat
deriving DecidableEq, Repr

def orchInit : OrchState := ⟨[], [], [], 0, 0⟩

/-- `DiscordTrelloBot.findExistingCard` (lines 682-692): search the board
for the first card whose name equals the key; a thrown search error is
caught and converted to `null`. -/
def findExistingCard (oracle : OrchOracle) (st : OrchState) (t : ThreadInfo) :
    OrchState × Option Nat :=
  let st' := { st with callIdx := st.callIdx + 1 }
  if oracle.searchOk st.callIdx then
    match st.board.find? (fun c => c.name == cardKey t) with
    | some c => (st', some c.id)
    | none => (st', none)
  else (st', none)

/-- `DiscordTrelloBot.createTrelloCard` (lines 169-203): create a card named
by the key; a creation error is rethrown. -/
def createTrelloCard (oracle : OrchOracle) (st : OrchState) (t : ThreadInfo) :
    OrchState × Except Unit Nat :=
  let st' := { st with callIdx := st.callIdx + 1 }
  if oracle.createOk st.callIdx then
    ({ st' with
        board := st.board ++ [⟨st.nextCard, cardKey t⟩],
        nextCard := st.nextCard + 1 }, Except.ok st.nextCard)
  else (st', Except.error ())

/-- `DiscordTrelloBot.createNewThreadCard` (lines 149-167): create the card,
publish both map directions, rethrow on failure (nothing published then). -/
def createNewThreadCard (oracle : OrchOracle) (st : OrchState) (t : ThreadInfo) :
    OrchState × Except Unit Unit :=
  match createTrelloCard oracle st t with
  | (st', Except.ok cid) =>
    ({ st' with
        threadCardMap := mSet st'.threadCardMap t.id cid,
        cardThreadMap := mSet st'.cardThreadMap cid t.id }, Except.ok ())
  | (st', Except.error e) => (st', Except.error e)

/-- The shared search-bind-or-create body of `handleNewThread` (lines
129-146) and `processExistingThread` (lines 89-104): both wrap it in a
`try { … } catch (error) { console.error(…) }` that swallows every error,
so the caller always sees normal completion. -/
def syncThreadCard (oracle : OrchOracle) (st : OrchState) (t : ThreadInfo) :
    OrchState × Except Unit Unit :=
  match findExistingCard oracle st t with
  | (st1, some cid) =>
    ({ st1 with
        threadCardMap := mSet st1.threadCardMap t.id cid,
        cardThreadMap := mSet st1.cardThreadMap cid t.id }, Except.ok ())
  | (st1, none) =>
    match createNewThreadCard oracle st1 t with
    | (st2, Except.ok _) => (st2, Except.ok ())
    | (st2, Except.error _) => (st2, Except.ok ())

/-- `DiscordTrelloBot.handleNewThread` (lines 107-147): an already-mapped
thread is only refreshed; otherwise search-bind-or-create, every error
swallowed by the trailing catch. -/
def handleNewThread (oracle : OrchOracle) (st : OrchState) (t : ThreadInfo) :
    OrchState × Except Unit Unit :=
  if (mGet st.threadCardMap t.id).isSome then (st, Except.ok ())
  else syncThreadCard oracle st t

/-- `DiscordTrelloBot.processExistingThread` (lines 88-105): NO
already-mapped check — it searches and rebinds unconditionally. -/
def processExistingThread (oracle : OrchOracle) (st : OrchState) (t : ThreadInfo) :
    OrchState × Except Unit Unit :=
  syncThreadCard oracle st t

/-- `DiscordTrelloBot.handleThreadMessage` (lines 224-248) for a
non-bot message in the thread: use the mapped card, else fall back to
`handleNewThread`; its own catch swallows errors. -/
def handleThreadMessage (oracle : OrchOracle) (st : OrchState) (t : ThreadInfo) :
    OrchState × Except Unit Unit :=
  match mGet st.threadCardMap t.id with
  | some _ => (st, Except.ok ())
  | none => ((handleNewThread oracle st t).1, Except.ok ())

inductive OrchEvent where
  | threadCreate (t : ThreadInfo)
  | threadMessage (t : ThreadInfo)
  | existingThread (t : ThreadInfo)
deriving DecidableEq, Repr

def eventThread : OrchEvent → ThreadInfo
  | .threadCreate t => t
  | .threadMessage t => t
  | .existingThread t => t

def stepOrch (oracle : OrchOracle) (st : OrchState) : OrchEvent → OrchState
  | .threadCreate t => (handleNewThread oracle st t).1
  | .threadMessage t => (handleThreadMessage oracle st t).1
  | .existingThread t => (processExistingThread oracle st t).1

def runOrch (oracle : OrchOracle) (st : OrchState) : List OrchEvent → OrchState
  | [] => st
  | e :: rest => runOrch oracle (stepOrch oracle st e) rest

theorem mGet_mSet_self [DecidableEq κ] (m : List (κ × α)) (k : κ) (v : α) :
    mGet (mSet m k v) k = some v := by
  induction m with
  | nil => simp [mSet, mGet]
  | cons p rest ih =>
    obtain ⟨k0, v0⟩ := p
    by_cases h0 : k0 = k
    · subst h0
      simp only [mSet, if_pos rfl]
      show (if k0 = k0 then some v else mGet rest k0) = some v
      rw [if_pos rfl]
    · simp only [mSet, if_neg h0]
      show (if k0 = k then some v0 else mGet (mSet rest k v) k) = some v
      rw [if_neg h0, ih]

theorem mGet_mSet_of_ne [DecidableEq κ] (m : List (κ × α)) (k k' : κ) (v : α)
    (h : k' ≠ k) : mGet (mSet m k v) k' = mGet m k' := by
  induction m with
  | nil =>
    show (if k = k' then some v else mGet [] k') = mGet [] k'
    rw [if_neg (Ne.symm h)]
  | cons p rest ih =>
    obtain ⟨k0, v0⟩ := p
    by_cases h0 : k0 = k
    · subst h0
      simp only [mSet, if_pos rfl]
      show (if k0 = k' then some v else mGet rest k') =
        (if k0 = k' then some v0 else mGet rest k')
      rw [if_neg (Ne.symm h), if_neg (Ne.symm h)]
    · simp only [mSet, if_neg h0]
      show (if k0 = k' then some v0 else mGet (mSet rest k v) k') =
        (if k0 = k' then some v0 else mGet rest k')
      rw [ih]

theorem mGet_mSet_of_get_eq [DecidableEq κ] (m : List (κ × α)) (k k' : κ) (v : α)
    (h : mGet m k = some v) : mGet (mSet m k v) k' = mGet m k' := by
  by_cases hk : k' = k
  · subst hk
    rw [mGet_mSet_self, h]
  · exact mGet_mSet_of_ne m k k' v hk

/-! ## Claim C5: failure propagation from the orchestrator -/

/-- Searches succeed, every card-creation call fails. -/
def c5Oracle : OrchOracle := ⟨fun _ => true, fun _ => false⟩

/-- Every search call fails (is thrown), creations succeed. -/
def c5OracleB : OrchOracle := ⟨fun _ => false, fun _ => true⟩

def c5Thread : ThreadInfo := ⟨"t1", "Bug report", "ana"⟩

/-- C5 counterexample.  On an unmapped thread with a failing card-creation
call, `createNewThreadCard` itself rethrows, but `handleNewThread`'s
trailing catch swallows the error: the caller sees normal completion
(`Except.ok`), refuting "the failure propagates to the orchestrator's
caller".  (The maps are indeed left untouched.)  A failing card SEARCH
does not propagate either: `findExistingCard` converts the thrown error to
`null`, and the handler then proceeds to create a brand-new card. -/
theorem createFailure_not_propagated :
    (createNewThreadCard c5Oracle { orchInit with callIdx := 1 } c5Thread).2 =
      Except.error () ∧
    (handleNewThread c5Oracle orchInit c5Thread).2 = Except.ok () ∧
    (handleNewThread c5Oracle orchInit c5Thread).1.threadCardMap = [] ∧
    (handleNewThread c5Oracle orchInit c5Thread).1.cardThreadMap = [] ∧
    (handleNewThread c5OracleB orchInit c5Thread).2 = Except.ok () ∧
    (handleNewThread c5OracleB orchInit c5Thread).1.board.length = 1 := by
  refine ⟨rfl, rfl, rfl, rfl, rfl, rfl⟩

/-- `createNewThreadCard` either succeeds, publishing both map directions
of a fresh binding, or rethrows with both maps untouched. -/
theorem createNewThreadCard_cases (oracle : OrchOracle) (st : OrchState) (t : ThreadInfo) :
    (∃ cid, (createNewThreadCard oracle st t).2 = Except.ok () ∧
      mGet (createNewThreadCard oracle st t).1.threadCardMap t.id = some cid ∧
      mGet (createNewThreadCard oracle st t).1.cardThreadMap cid = some t.id) ∨
    ((createNewThreadCard oracle st t).2 = Except.error () ∧
      (createNewThreadCard oracle st t).1.threadCardMap = st.threadCardMap ∧
      (createNewThreadCard oracle st t).1.cardThreadMap = st.cardThreadMap) := by
  unfold createNewThreadCard createTrelloCard
  dsimp only
  by_cases hc : oracle.createOk st.callIdx
  · simp only [if_pos hc]
    exact Or.inl ⟨st.nextCard, by trivial, mGet_mSet_self _ _ _, mGet_mSet_self _ _ _⟩
  · simp only [if_neg hc]
    exact Or.inr ⟨by trivial, by trivial, by trivial⟩

/-- `syncThreadCard` always completes normally; it either leaves both maps
untouched or publishes both directions of the thread's binding together. -/
theorem syncThreadCard_ok_atomic (oracle : OrchOracle) (st : OrchState) (t : ThreadInfo) :
    (syncThreadCard oracle st t).2 = Except.ok () ∧
    (((syncThreadCard oracle st t).1.threadCardMap = st.threadCardMap ∧
      (syncThreadCard oracle st t).1.cardThreadMap = st.cardThreadMap) ∨
     ∃ cid, mGet (syncThreadCard oracle st t).1.threadCardMap t.id = some cid ∧
       mGet (syncThreadCard oracle st t).1.cardThreadMap cid = some t.id) := by
  unfold syncThreadCard findExistingCard
  dsimp only
  by_cases hs : oracle.searchOk st.callIdx
  · simp only [if_pos hs]
    cases hfind : st.board.find? (fun c => c.name == cardKey t) with
    | some c =>
      simp only [hfind]
      exact ⟨by trivial, Or.inr ⟨c.id, mGet_mSet_self _ _ _, mGet_mSet_self _ _ _⟩⟩
    | none =>
      simp only [hfind]
      have H := createNewThreadCard_cases oracle { st with callIdx := st.callIdx + 1 } t
      rcases hcc : createNewThreadCard oracle { st with callIdx := st.callIdx + 1 } t
        with ⟨st2, r⟩
      rw [hcc] at H
      cases r with
      | ok u =>
        rcases H with ⟨cid, _, h1, h2⟩ | ⟨herr, _, _⟩
        · exact ⟨rfl, Or.inr ⟨cid, h1, h2⟩⟩
        · exact absurd herr (by simp)
      | error e =>
        rcases H with ⟨cid, hok, _, _⟩ | ⟨_, h1, h2⟩
        · exact absurd hok (by simp)
        · exact ⟨rfl, Or.inl ⟨h1, h2⟩⟩
  · simp only [if_neg hs]
    have H := createNewThreadCard_cases oracle { st with callIdx := st.callIdx + 1 } t
    rcases hcc : createNewThreadCard oracle { st with callIdx := st.callIdx + 1 } t
      with ⟨st2, r⟩
    rw [hcc] at H
    cases r with
    | ok u =>
      rcases H with ⟨cid, _, h1, h2⟩ | ⟨herr, _, _⟩
      · exact ⟨rfl, Or.inr ⟨cid, h1, h2⟩⟩
      · exact absurd herr (by simp)
    | error e =>
      rcases H with ⟨cid, hok, _, _⟩ | ⟨_, h1, h2⟩
      · exact absurd hok (by simp)
      · exact ⟨rfl, Or.inl ⟨h1, h2⟩⟩

/-- C5 (amended).  For every orchestrator trigger on an unmapped thread,
if the card search or the card creation fails the sync is aborted with no
partial mapping published (whenever `handleNewThread` touches the maps at
all it publishes both directions of the thread's binding together), and
the thread remains unmapped so a later trigger retries from scratch;
however the failure does NOT propagate to the caller: `handleNewThread`
always completes with `Except.ok`, its catch having swallowed any search
or creation error (and `findExistingCard` converts search errors to
`null`). -/
theorem handleNewThread_swallows_failures_atomic (oracle : OrchOracle)
    (st : OrchState) (t : ThreadInfo) :
    (handleNewThread oracle st t).2 = Except.ok () ∧
    (((handleNewThread oracle st t).1.threadCardMap = st.threadCardMap ∧
      (handleNewThread oracle st t).1.cardThreadMap = st.cardThreadMap) ∨
     ∃ cid, mGet (handleNewThread oracle st t).1.threadCardMap t.id = some cid ∧
       mGet (handleNewThread oracle st t).1.cardThreadMap cid = some t.id) := by
  unfold handleNewThread
  split
  · exact ⟨rfl, Or.inl ⟨rfl, rfl⟩⟩
  · exact syncThreadCard_ok_atomic oracle st t

theorem handleNewThread_swallows_failures_atomic_witness :
    (handleNewThread c5Oracle orchInit c5Thread).2 = Except.ok () ∧
    (((handleNewThread c5Oracle orchInit c5Thread).1.threadCardMap = orchInit.threadCardMap ∧
      (handleNewThread c5Oracle orchInit c5Thread).1.cardThreadMap = orchInit.cardThreadMap) ∨
     ∃ cid, mGet (handleNewThread c5Oracle orchInit c5Thread).1.threadCardMap c5Thread.id = some cid ∧
       mGet (handleNewThread c5Oracle orchInit c5Thread).1.cardThreadMap cid = some c5Thread.id) :=
  handleNewThread_swallows_failures_atomic c5Oracle orchInit c5Thread

/-! ## Claim C3: mapping uniqueness -/

/-- Every Board System call succeeds. -/
def c3Oracle : OrchOracle := ⟨fun _ => true, fun _ => true⟩

def c3ThreadA : ThreadInfo := ⟨"t1", "Bug", "ana"⟩

/-- A different thread with the same name and creator, hence the same card
title. -/
def c3ThreadB : ThreadInfo := ⟨"t2", "Bug", "ana"⟩

/-- C3 counterexample.  Two distinct threads sharing a name and creator:
the first trigger creates card 0 and binds it to thread t1; the second
trigger's `findExistingCard` search matches card 0 by title, so t2 is
bound to card 0 and the reverse map entry for card 0 is overwritten from
t1 to t2.  Card 0 has then resolved to two different threads over the
trace, while both t1 and t2 resolve to card 0 — refuting mapping
uniqueness. -/
theorem sameKeyThreads_rebind_card :
    mGet (runOrch c3Oracle orchInit
      [OrchEvent.threadCreate c3ThreadA]).cardThreadMap 0 = some "t1" ∧
    mGet (runOrch c3Oracle orchInit
      [OrchEvent.threadCreate c3ThreadA,
       OrchEvent.threadCreate c3ThreadB]).cardThreadMap 0 = some "t2" ∧
    mGet (runOrch c3Oracle orchInit
      [OrchEvent.threadCreate c3ThreadA,
       OrchEvent.threadCreate c3ThreadB]).threadCardMap "t1" = some 0 ∧
    mGet (runOrch c3Oracle orchInit
      [OrchEvent.threadCreate c3ThreadA,
       OrchEvent.threadCreate c3ThreadB]).threadCardMap "t2" = some 0 := by
  refine ⟨by decide, by decide, by decide, by decide⟩

/-- The invariant tying the two maps, the board and the card-id counter
together, relative to a universe `T` of thread records the events may
mention. -/
structure OrchInv (T : List ThreadInfo) (st : OrchState) : Prop where
  inv1 : ∀ k c, mGet st.threadCardMap k = some c → mGet st.cardThreadMap c = some k
  inv2 : ∀ c k, mGet st.cardThreadMap c = some k → mGet st.threadCardMap k = some c
  bounded : ∀ k c, mGet st.threadCardMap k = some c → c < st.nextCard
  boardBounded : ∀ card ∈ st.board, card.id < st.nextCard
  boardNodup : (st.board.map BoardCard.id).Nodup
  boardSound : ∀ card ∈ st.board, ∃ tr ∈ T, card.name = cardKey tr ∧
      mGet st.threadCardMap tr.id = some card.id
  mapSound : ∀ k c, mGet st.threadCardMap k = some c →
      ∃ tr ∈ T, tr.id = k ∧ BoardCard.mk c (cardKey tr) ∈ st.board

theorem orchInv_init (T : List ThreadInfo) : OrchInv T orchInit := by
  refine ⟨?_, ?_, ?_, ?_, ?_, ?_, ?_⟩ <;> simp [orchInit, mGet]

theorem orchInv_congr (T : List ThreadInfo) (st' st : OrchState) (hI : OrchInv T st)
    (h1 : ∀ k, mGet st'.threadCardMap k = mGet st.threadCardMap k)
    (h2 : ∀ c, mGet st'.cardThreadMap c = mGet st.cardThreadMap c)
    (h3 : st'.board = st.board) (h4 : st'.nextCard = st.nextCard) : OrchInv T st' := by
  refine ⟨?_, ?_, ?_, ?_, ?_, ?_, ?_⟩
  · intro k c h
    rw [h2]
    exact hI.inv1 k c (h1 k ▸ h)
  · intro c k h
    rw [h1]
    exact hI.inv2 c k (h2 c ▸ h)
  · intro k c h
    rw [h4]
    exact hI.bounded k c (h1 k ▸ h)
  · intro card hmem
    rw [h4]
    exact hI.boardBounded card (h3 ▸ hmem)
  · rw [h3]
    exact hI.boardNodup
  · intro card hmem
    obtain ⟨tr, htr, hnm, hbind⟩ := hI.boardSound card (h3 ▸ hmem)
    exact ⟨tr, htr, hnm, by rw [h1]; exact hbind⟩
  · intro k c h
    obtain ⟨tr, htr, hid, hmemb⟩ := hI.mapSound k c (h1 k ▸ h)
    exact ⟨tr, htr, hid, h3 ▸ hmemb⟩

theorem syncThreadCard_orchInv (oracle : OrchOracle) (T : List ThreadInfo)
    (st : OrchState) (t : ThreadInfo) (ht : t ∈ T)
    (hinj : ∀ t1 ∈ T, ∀ t2 ∈ T, t1.id = t2.id ∨ cardKey t1 = cardKey t2 → t1 = t2)
    (hsearch : ∀ i, oracle.searchOk i = true) (hI : OrchInv T st) :
    OrchInv T (syncThreadCard oracle st t).1 ∧
    ∀ k c, mGet st.threadCardMap k = some c →
      mGet (syncThreadCard oracle st t).1.threadCardMap k = some c := by
  unfold syncThreadCard findExistingCard
  dsimp only
  rw [if_pos (hsearch st.callIdx)]
  cases hfind : st.board.find? (fun c => c.name == cardKey t) with
  | some card =>
    simp only [hfind]
    have hmem : card ∈ st.board := List.mem_of_find?_eq_some hfind
    have hname : card.name = cardKey t := by
      have hp := List.find?_some hfind
      simpa [beq_iff_eq] using hp
    obtain ⟨tr, htr, hnm, hbind⟩ := hI.boardSound card hmem
    have htrt : tr = t := hinj tr htr t ht (Or.inr (by rw [← hnm, hname]))
    subst htrt
    have hctm : mGet st.cardThreadMap card.id = some tr.id := hI.inv1 _ _ hbind
    constructor
    · exact orchInv_congr T _ st hI
        (fun k => mGet_mSet_of_get_eq st.threadCardMap tr.id k card.id hbind)
        (fun c => mGet_mSet_of_get_eq st.cardThreadMap card.id c tr.id hctm)
        rfl rfl
    · intro k c h
      rw [mGet_mSet_of_get_eq st.threadCardMap tr.id k card.id hbind]
      exact h
  | none =>
    simp only [hfind]
    have hunmapped : mGet st.threadCardMap t.id = none := by
      cases hmt : mGet st.threadCardMap t.id with
      | none => rfl
      | some c =>
        obtain ⟨tr, htr, hid, hmemb⟩ := hI.mapSound t.id c hmt
        have htrt : tr = t := hinj tr htr t ht (Or.inl hid)
        subst htrt
        have hpred := List.find?_eq_none.mp hfind _ hmemb
        simp at hpred
    unfold createNewThreadCard createTrelloCard
    dsimp only
    by_cases hc : oracle.createOk (st.callIdx + 1) = true
    · rw [if_pos hc]
      dsimp only
      constructor
      · refine ⟨?_, ?_, ?_, ?_, ?_, ?_, ?_⟩
        · intro k c h
          by_cases hk : k = t.id
          · subst hk
            rw [mGet_mSet_self] at h
            injection h with h'
            subst h'
            exact mGet_mSet_self _ _ _
          · rw [mGet_mSet_of_ne _ _ _ _ hk] at h
            have h1 := hI.inv1 k c h
            have hcn : c ≠ st.nextCard := Nat.ne_of_lt (hI.bounded k c h)
            rw [mGet_mSet_of_ne _ _ _ _ hcn]
            exact h1
        · intro c k h
          by_cases hcn : c = st.nextCard
          · subst hcn
            rw [mGet_mSet_self] at h
            injection h with h'
            subst h'
            exact mGet_mSet_self _ _ _
          · rw [mGet_mSet_of_ne _ _ _ _ hcn] at h
            have h2 := hI.inv2 c k h
            by_cases hk : k = t.id
            · subst hk
              rw [hunmapped] at h2
              cases h2
            · rw [mGet_mSet_of_ne _ _ _ _ hk]
              exact h2
        · intro k c h
          by_cases hk : k = t.id
          · subst hk
            rw [mGet_mSet_self] at h
            injection h with h'
            subst h'
            exact Nat.lt_succ_self _
          · rw [mGet_mSet_of_ne _ _ _ _ hk] at h
            exact Nat.lt_succ_of_lt (hI.bounded k c h)
        · intro card hmem
          rcases List.mem_append.mp hmem with hB | hnew
          · exact Nat.lt_succ_of_lt (hI.boardBounded card hB)
          · rw [List.mem_singleton] at hnew
            subst hnew
            exact Nat.lt_succ_self _
        · rw [List.map_append, List.nodup_append]
          refine ⟨hI.boardNodup, List.nodup_singleton _, ?_⟩
          intro x hx hx2
          rw [List.map_singleton, List.mem_singleton] at hx2
          subst hx2
          obtain ⟨card, hcB, hcid⟩ := List.mem_map.mp hx
          have hcid2 : card.id = st.nextCard := hcid
          exact absurd (hcid2 ▸ hI.boardBounded card hcB) (lt_irrefl st.nextCard)
        · intro card hmem
          rcases List.mem_append.mp hmem with hB | hnew
          · obtain ⟨tr, htr, hnm, hbind⟩ := hI.boardSound card hB
            refine ⟨tr, htr, hnm, ?_⟩
            have hne : tr.id ≠ t.id := by
              intro hidq
              have htrt : tr = t := hinj tr htr t ht (Or.inl hidq)
              subst htrt
              rw [hunmapped] at hbind
              cases hbind
            rw [mGet_mSet_of_ne _ _ _ _ hne]
            exact hbind
          · rw [List.mem_singleton] at hnew
            subst hnew
            exact ⟨t, ht, rfl, mGet_mSet_self _ _ _⟩
        · intro k c h
          by_cases hk : k = t.id
          · subst hk
            rw [mGet_mSet_self] at h
            injection h with h'
            subst h'
            exact ⟨t, ht, rfl, List.mem_append.mpr (Or.inr (List.mem_singleton.mpr rfl))⟩
          · rw [mGet_mSet_of_ne _ _ _ _ hk] at h
            obtain ⟨tr, htr, hid, hmemb⟩ := hI.mapSound k c h
            exact ⟨tr, htr, hid, List.mem_append.mpr (Or.inl hmemb)⟩
      · intro k c h
        have hk : k ≠ t.id := by
          intro he
          rw [he, hunmapped] at h
          cases h
        rw [mGet_mSet_of_ne _ _ _ _ hk]
        exact h
    · rw [if_neg hc]
      dsimp only
      constructor
      · exact orchInv_congr T _ st hI (fun k => rfl) (fun c => rfl) rfl rfl
      · intro k c h
        exact h

theorem stepOrch_orchInv (oracle : OrchOracle) (T : List ThreadInfo)
    (st : OrchState) (e : OrchEvent) (ht : eventThread e ∈ T)
    (hinj : ∀ t1 ∈ T, ∀ t2 ∈ T, t1.id = t2.id ∨ cardKey t1 = cardKey t2 → t1 = t2)
    (hsearch : ∀ i, oracle.searchOk i = true) (hI : OrchInv T st) :
    OrchInv T (stepOrch oracle st e) ∧
    ∀ k c, mGet st.threadCardMap k = some c →
      mGet (stepOrch oracle st e).threadCardMap k = some c := by
  cases e with
  | threadCreate t =>
    dsimp only [stepOrch, handleNewThread]
    split
    · exact ⟨hI, fun k c h => h⟩
    · exact syncThreadCard_orchInv oracle T st t ht hinj hsearch hI
  | threadMessage t =>
    dsimp only [stepOrch, handleThreadMessage]
    cases hmt : mGet st.threadCardMap t.id with
    | some c0 =>
      simp only [hmt]
      exact ⟨hI, fun k c h => h⟩
    | none =>
      simp only [hmt]
      have heq : handleNewThread oracle st t = syncThreadCard oracle st t := by
        unfold handleNewThread
        rw [if_neg (show ¬ ((mGet st.threadCardMap t.id).isSome = true) from by
          rw [hmt]
          simp)]
      rw [heq]
      exact syncThreadCard_orchInv oracle T st t ht hinj hsearch hI
  | existingThread t =>
    exact syncThreadCard_orchInv oracle T st t ht hinj hsearch hI

theorem runOrch_orchInv (oracle : OrchOracle) (T : List ThreadInfo)
    (hinj : ∀ t1 ∈ T, ∀ t2 ∈ T, t1.id = t2.id ∨ cardKey t1 = cardKey t2 → t1 = t2)
    (hsearch : ∀ i, oracle.searchOk i = true) :
    ∀ events st, (∀ e ∈ events, eventThread e ∈ T) → OrchInv T st →
      OrchInv T (runOrch oracle st events) ∧
      ∀ k c, mGet st.threadCardMap k = some c →
        mGet (runOrch oracle st events).threadCardMap k = some c := by
  intro events
  induction events with
  | nil => exact fun st _ hI => ⟨hI, fun k c h => h⟩
  | cons e rest ih =>
    intro st hT hI
    have hstep := stepOrch_orchInv oracle T st e (hT e (List.mem_cons_self e rest))
      hinj hsearch hI
    have hrest := ih (stepOrch oracle st e)
      (fun e2 he2 => hT e2 (List.mem_cons_of_mem e he2)) hstep.1
    exact ⟨hrest.1, fun k c h => hrest.2 k c (hstep.2 k c h)⟩

theorem runOrch_append (oracle : OrchOracle) (pre post : List OrchEvent) :
    ∀ st, runOrch oracle st (pre ++ post) =
      runOrch oracle (runOrch oracle st pre) post := by
  induction pre with
  | nil => exact fun st => rfl
  | cons e rest ih => exact fun st => ih (stepOrch oracle st e)

/-- C3 (amended).  Provided the threads named by the trigger sequence are
consistent and key-distinct (two thread records sharing an id or sharing a
card title `[Discord] name - by creator` are the same record) and every
board search succeeds, mapping uniqueness holds over the whole trace from
an empty initial state: any binding present after a prefix of the events
is still present, unchanged, at the end — so no thread ever resolves to
two different cards and no card ever resolves to two different threads —
and the two maps stay mutually inverse.  Without the key-distinctness
proviso the property fails (two threads with the same name and creator
make `findExistingCard` adopt the first thread's card for the second). -/
theorem mappingUniqueness_of_distinct_keys (oracle : OrchOracle)
    (events : List OrchEvent)
    (hinj : ∀ t1 ∈ events.map eventThread, ∀ t2 ∈ events.map eventThread,
      t1.id = t2.id ∨ cardKey t1 = cardKey t2 → t1 = t2)
    (hsearch : ∀ i, oracle.searchOk i = true) :
    ∀ pre post, events = pre ++ post →
      (∀ k c, mGet (runOrch oracle orchInit pre).threadCardMap k = some c →
        mGet (runOrch oracle orchInit events).threadCardMap k = some c ∧
        mGet (runOrch oracle orchInit events).cardThreadMap c = some k) ∧
      (∀ c k, mGet (runOrch oracle orchInit pre).cardThreadMap c = some k →
        mGet (runOrch oracle orchInit events).cardThreadMap c = some k) := by
  intro pre post hsplit
  subst hsplit
  have hpreT : ∀ e ∈ pre, eventThread e ∈ (pre ++ post).map eventThread :=
    fun e he => List.mem_map.mpr ⟨e, List.mem_append.mpr (Or.inl he), rfl⟩
  have hpostT : ∀ e ∈ post, eventThread e ∈ (pre ++ post).map eventThread :=
    fun e he => List.mem_map.mpr ⟨e, List.mem_append.mpr (Or.inr he), rfl⟩
  have hpre := runOrch_orchInv oracle ((pre ++ post).map eventThread) hinj hsearch
    pre orchInit hpreT (orchInv_init _)
  have hfull := runOrch_orchInv oracle ((pre ++ post).map eventThread) hinj hsearch
    post (runOrch oracle orchInit pre) hpostT hpre.1
  rw [runOrch_append oracle pre post orchInit]
  constructor
  · intro k c h
    have hpersist := hfull.2 k c h
    exact ⟨hpersist, hfull.1.inv1 k c hpersist⟩
  · intro c k h
    have h1 := hpre.1.inv2 c k h
    exact hfull.1.inv1 k c (hfull.2 k c h1)

def c3WEvents : List OrchEvent :=
  [OrchEvent.threadCreate ⟨"t1", "Bug", "ana"⟩,
   OrchEvent.threadMessage ⟨"t1", "Bug", "ana"⟩,
   OrchEvent.existingThread ⟨"t2", "Other", "bob"⟩]

theorem mappingUniqueness_of_distinct_keys_witness :
    mGet (runOrch c3Oracle orchInit c3WEvents).threadCardMap "t1" = some 0 ∧
    mGet (runOrch c3Oracle orchInit c3WEvents).cardThreadMap 0 = some "t1" :=
  (mappingUniqueness_of_distinct_keys c3Oracle c3WEvents (by decide) (fun i => rfl)
    [OrchEvent.threadCreate ⟨"t1", "Bug", "ana"⟩]
    [OrchEvent.threadMessage ⟨"t1", "Bug", "ana"⟩,
     OrchEvent.existingThread ⟨"t2", "Other", "bob"⟩] rfl).1 "t1" 0 (by decide)
